import Mathlib

/-!
# fn CLI: custom-server build command and language-helper registry

A shallow embedding of `build_server.go` (package `main`) and `langs/base.go`
(package `langs`), followed by the properties proved about them.

Conventions of the embedding:

* Go strings are Lean strings.
* A Go `error` is `Option GoError`: `none` is `nil`.
* Every call that leaves the process (file system, working directory, YAML
  library, docker build, standard output) is answered by an `Env` and recorded,
  in program order, in a history of `Call`s.  The answer to a call may depend on
  everything that happened before it, so an `Env` stands for an arbitrary
  deterministic outside world.
* `html/template` is embedded for the fragment of the template language that
  `mainTmpl` uses: text, `{{ .Field }}` inside a `range`, `{{ range .Field }}`,
  `{{ end }}` and the trim markers.  Anything else is rejected by the parser.
-/

namespace FnCli

/-! ## Go errors -/

/-- A Go error value: the text its `Error()` method returns, and whether
`os.IsNotExist` holds of it. -/
structure GoError where
  msg : String
  notExist : Bool := false
deriving DecidableEq, Repr

/-- Go `errors.New`. -/
def errorsNew (text : String) : GoError := { msg := text }

/-! ## Manifest types (`build_server.go`, lines 134-141) -/

/-- Go `type extInfo struct { Name string }`. -/
structure extInfo where
  Name : String
deriving DecidableEq, Repr

/-- Go `type extFile struct { Extensions []*extInfo }`: the elements are
pointers, `none` is the nil pointer. -/
structure extFile where
  Extensions : List (Option extInfo)
deriving DecidableEq, Repr

/-! ## The two text constants (`build_server.go`, lines 143-163 and 171-187) -/

/-- Go `var mainTmpl`, byte for byte. -/
def mainTmpl : String :=
  "package main\n\nimport (\n\t\"context\"\n\n\t\"github.com/fnproject/fn/api/server\"\n\t\n\t\x7b\x7b- range .Extensions \x7d\x7d\n\t\t_ \"\x7b\x7b .Name \x7d\x7d\"\n\t\x7b\x7b- end\x7d\x7d\n)\n\nfunc main() \x7b\n\tctx := context.Background()\n\tfuncServer := server.NewFromEnv(ctx)\n\t\x7b\x7b- range .Extensions \x7d\x7d\n\t\tfuncServer.AddExtensionByName(\"\x7b\x7b .Name \x7d\x7d\")\n\t\x7b\x7b- end\x7d\x7d\n\tfuncServer.Start(ctx)\n\x7d\n"

/-- Go `var dockerFileTmpl`, byte for byte. -/
def dockerFileTmpl : String :=
  "# build stage\nFROM golang:1.9-alpine AS build-env\nRUN apk --no-cache add build-base git bzr mercurial gcc\n# RUN go get -u github.com/golang/dep/cmd/dep\nENV D=/go/src/github.com/x/y\nADD main.go $D/\nRUN cd $D && go get\n# RUN cd $D && dep init && dep ensure\nRUN cd $D && go build -o fnserver && cp fnserver /tmp/\n\n# final stage\nFROM fnproject/dind\nRUN apk add --no-cache ca-certificates\nWORKDIR /app\nCOPY --from=build-env /tmp/fnserver /app/fnserver\nCMD [\"./fnserver\"]\n"

/-! ## Template language: lexer (`text/template/parse`) -/

/-- The characters removed by a trim marker: space, tab, carriage return, newline. -/
def isTrimSpace (c : Char) : Bool :=
  c = ' ' || c = '\t' || c = '\r' || c = '\n'

/-- The scanner reads one character at a time; its mode says whether it is in
literal text or inside an action, and whether the previous character was the
first half of a delimiter. -/
inductive Mode
  | text
  | textBrace
  | action
  | actionBrace
deriving DecidableEq, Repr

/-- Cut the source at the delimiters `{{` and `}}`.  The flag of a segment
says whether it is the inside of an action (`true`) or literal text (`false`);
text and actions alternate, starting and ending with text.  An action that is
not closed, or that contains a newline, is a lexing error (`none`). -/
def scan : Mode → List Char → List Char → Option (List (Bool × List Char))
  | .text, acc, [] => some [(false, acc.reverse)]
  | .textBrace, acc, [] => some [(false, ('\x7b' :: acc).reverse)]
  | .action, _, [] => none
  | .actionBrace, _, [] => none
  | .text, acc, c :: rest =>
    if c = '\x7b' then scan .textBrace acc rest else scan .text (c :: acc) rest
  | .textBrace, acc, c :: rest =>
    if c = '\x7b' then (scan .action [] rest).map ((false, acc.reverse) :: ·)
    else scan .text (c :: '\x7b' :: acc) rest
  | .action, acc, c :: rest =>
    if c = '\x7d' then scan .actionBrace acc rest
    else if c = '\n' then none
    else scan .action (c :: acc) rest
  | .actionBrace, acc, c :: rest =>
    if c = '\x7d' then (scan .text [] rest).map ((true, acc.reverse) :: ·)
    else if c = '\n' then none
    else scan .action (c :: '\x7d' :: acc) rest

/-- Does the action start with the left trim marker, a dash and a space? -/
def hasLeftTrim : List Char → Bool
  | '-' :: ' ' :: _ => true
  | _ => false

/-- Does the action end with the right trim marker, a space and a dash? -/
def hasRightTrim (body : List Char) : Bool :=
  hasLeftTrim body.reverse

/-- The action without its trim markers. -/
def stripTrimMarkers (body : List Char) : List Char :=
  let b := if hasLeftTrim body then body.drop 2 else body
  if hasRightTrim b then b.take (b.length - 2) else b

/-- The words of an action: maximal runs of characters other than space and tab. -/
def actionWords : List Char → List Char → List String
  | [], [] => []
  | cur, [] => [String.mk cur.reverse]
  | cur, c :: rest =>
    if c = ' ' ∨ c = '\t' then
      (if cur = [] then actionWords [] rest else String.mk cur.reverse :: actionWords [] rest)
    else actionWords (c :: cur) rest

/-- A lexical item: literal text (never empty) or the words of an action. -/
inductive Item
  | text (s : String)
  | action (words : List String)
deriving DecidableEq, Repr

/-- Does the segment list start with an action that carries a left trim marker? -/
def nextTrimsLeft : List (Bool × List Char) → Bool
  | (true, body) :: _ => hasLeftTrim body
  | _ => false

/-- Turn the segments into items: text next to a trim marker loses its white
space on that side, and text that is (or becomes) empty is not emitted. -/
def items : Bool → List (Bool × List Char) → List Item
  | _, [] => []
  | prevTrimsRight, (false, t) :: rest =>
    let t1 := if prevTrimsRight then t.dropWhile isTrimSpace else t
    let t2 := if nextTrimsLeft rest then (t1.reverse.dropWhile isTrimSpace).reverse else t1
    if t2 = [] then items false rest else Item.text (String.mk t2) :: items false rest
  | _, (true, body) :: rest =>
    Item.action (actionWords [] (stripTrimMarkers body)) :: items (hasRightTrim body) rest

/-- The lexer: source text to items. -/
def lex (src : String) : Option (List Item) :=
  (scan .text [] src.toList).map (items false)

/-! ## Template language: parser -/

/-- What can stand inside a `range`: literal text, or the action
`{{ .field | f1 | f2 ... }}` printing a field of the current element after
passing it through the named functions. -/
inductive Leaf
  | text (s : String)
  | action (field : String) (funcs : List String)
deriving DecidableEq, Repr

/-- A top-level node: literal text, or a `range` over a field of the data with
its body. -/
inductive Node
  | text (s : String)
  | range (field : String) (body : List Leaf)
deriving DecidableEq, Repr

/-- The name in a field selector `.Name`: a dot followed by a non-empty run of
letters, digits and underscores. -/
def fieldName (w : String) : Option String :=
  match w.toList with
  | '.' :: c :: cs =>
    if (c :: cs).all (fun x => x.isAlphanum || x = '_') then some (String.mk (c :: cs)) else none
  | _ => none

/-- The parser.  The first argument is the `range` being read, if any, with the
body collected so far.  A `range` inside a `range`, a field action outside a
`range`, an `end` without `range`, a `range` without `end`, and every other
action are rejected. -/
def parseItems : Option (String × List Leaf) → List Item → Option (List Node)
  | none, [] => some []
  | some _, [] => none
  | none, Item.text s :: rest => (parseItems none rest).map (Node.text s :: ·)
  | some (f, body), Item.text s :: rest => parseItems (some (f, body ++ [Leaf.text s])) rest
  | none, Item.action ws :: rest =>
    match ws with
    | [kw, sel] =>
      if kw = "range" then
        match fieldName sel with
        | some f => parseItems (some (f, [])) rest
        | none => none
      else none
    | _ => none
  | some (f, body), Item.action ws :: rest =>
    match ws with
    | [w] =>
      if w = "end" then (parseItems none rest).map (Node.range f body :: ·)
      else
        match fieldName w with
        | some g => parseItems (some (f, body ++ [Leaf.action g []])) rest
        | none => none
    | _ => none

/-- Go `template.New(name).Parse(src)`: the parsed template, or the parse error. -/
def Parse (name src : String) : Except GoError (List Node) :=
  match (lex src).bind (parseItems none) with
  | some t => .ok t
  | none => .error (errorsNew ("template: " ++ name ++ ": parse error"))

/-! ## `html/template`: contextual escaping and execution -/

/-- Go `htmlReplacementTable` of `html/template`: the replacement of a
character, the empty string when it has none. -/
def htmlReplacementTable (c : Char) : String :=
  if c = '\x00' then "\uFFFD"
  else if c = '"' then "&#34;"
  else if c = '&' then "&amp;"
  else if c = '\x27' then "&#39;"
  else if c = '+' then "&#43;"
  else if c = '<' then "&lt;"
  else if c = '>' then "&gt;"
  else ""

/-- Concatenation of a list of strings, in order. -/
def concat : List String → String
  | [] => ""
  | s :: rest => s ++ concat rest

/-- Go `htmlEscaper` applied to one plain string (`htmlReplacer` with
`htmlReplacementTable`): every character that has a replacement is replaced,
the others are kept. -/
def htmlEscaper (s : String) : String :=
  concat (s.toList.map fun c =>
    if htmlReplacementTable c = "" then String.singleton c else htmlReplacementTable c)

/-- The name under which `html/template` inserts its HTML escaper in a pipeline. -/
def htmlEscaperName : String := "_html_template_htmlescaper"

/-- Contextual escaping of what stands inside a `range`, in the HTML text
context.  Text without `<` leaves the context unchanged and is kept as it is;
an action gets the HTML escaper appended to its pipeline.  Text with `<` would
start a tag and change the context: it is outside the embedded fragment. -/
def escapeLeaf : Leaf → Option Leaf
  | .text s => if s.toList.contains '<' then none else some (.text s)
  | .action field funcs => some (.action field (funcs ++ [htmlEscaperName]))

/-- Contextual escaping of a list of leaves. -/
def escapeLeaves : List Leaf → Option (List Leaf)
  | [] => some []
  | l :: ls =>
    match escapeLeaf l, escapeLeaves ls with
    | some l1, some ls1 => some (l1 :: ls1)
    | _, _ => none

/-- Contextual escaping of a template (`html/template`, done on first
execution), starting in the HTML text context. -/
def escapeTemplate : List Node → Option (List Node)
  | [] => some []
  | .text s :: rest =>
    if s.toList.contains '<' then none
    else (escapeTemplate rest).map (Node.text s :: ·)
  | .range field body :: rest =>
    match escapeLeaves body, escapeTemplate rest with
    | some b, some r => some (Node.range field b :: r)
    | _, _ => none

/-- Evaluation of `.field` on a `*extInfo`.  Of the error messages only the
final part is kept: the real ones also carry the position in the template and
the action being executed (`template: main:9:8: executing "main" at <.Name>:
nil pointer evaluating *main.extInfo.Name`). -/
def evalField (dot : Option extInfo) (field : String) : Except GoError String :=
  match dot with
  | none => .error (errorsNew ("template: main: nil pointer evaluating *main.extInfo." ++ field))
  | some e =>
    if field = "Name" then .ok e.Name
    else .error (errorsNew ("template: main: can't evaluate field " ++ field ++ " in type *main.extInfo"))

/-- Call of a template function by name; the only one in use is the HTML escaper. -/
def callFunc (name arg : String) : Except GoError String :=
  if name = htmlEscaperName then .ok (htmlEscaper arg)
  else .error (errorsNew ("template: main: function " ++ name ++ " not defined"))

/-- The rest of a pipeline applied to a value, left to right. -/
def applyFuncs : List String → String → Except GoError String
  | [], v => .ok v
  | f :: fs, v =>
    match callFunc f v with
    | .ok w => applyFuncs fs w
    | .error e => .error e

/-- The text one leaf writes, the current element being `dot`. -/
def execLeaf (dot : Option extInfo) : Leaf → Except GoError String
  | .text s => .ok s
  | .action field funcs =>
    match evalField dot field with
    | .ok v => applyFuncs funcs v
    | .error e => .error e

/-- Execution of the body of a `range` for one element: the pieces of text
written, in order, up to the first error, and that error. -/
def execLeaves (dot : Option extInfo) : List Leaf → List String × Option GoError
  | [] => ([], none)
  | l :: ls =>
    match execLeaf dot l with
    | .error e => ([], some e)
    | .ok s => (s :: (execLeaves dot ls).1, (execLeaves dot ls).2)

/-- Execution of a `range` over the elements, in slice order. -/
def execRange (body : List Leaf) : List (Option extInfo) → List String × Option GoError
  | [] => ([], none)
  | e :: es =>
    match (execLeaves e body).2 with
    | some err => ((execLeaves e body).1, some err)
    | none => ((execLeaves e body).1 ++ (execRange body es).1, (execRange body es).2)

/-- Evaluation of `.field` on the `*extFile` a `range` iterates over. -/
def evalRangeField (ef : extFile) (field : String) : Except GoError (List (Option extInfo)) :=
  if field = "Extensions" then .ok ef.Extensions
  else .error (errorsNew ("template: main: can't evaluate field " ++ field ++ " in type *main.extFile"))

/-- Execution of a template on a `*extFile`: the pieces of text written, in
order, up to the first error, and that error. -/
def execNodes (ef : extFile) : List Node → List String × Option GoError
  | [] => ([], none)
  | .text s :: rest => (s :: (execNodes ef rest).1, (execNodes ef rest).2)
  | .range field body :: rest =>
    match evalRangeField ef field with
    | .error e => ([], some e)
    | .ok elems =>
      match (execRange body elems).2 with
      | some err => ((execRange body elems).1, some err)
      | none => ((execRange body elems).1 ++ (execNodes ef rest).1, (execNodes ef rest).2)

/-! ## The outside world -/

/-- A call that leaves the process, with its arguments.  An open file is
named by the path it was created with. -/
inductive Call
  | readFile (path : String)
  | mkdirAll (path : String) (perm : Nat)
  | chdir (dir : String)
  | create (path : String)
  | write (file : String) (data : String)
  | close (file : String)
  | writeFile (path : String) (data : String) (perm : Nat)
  | getwd
  | runBuild (dir : String) (tag : String) (dockerfile : String) (noCache : Bool)
  | printf (text : String)
  | stat (path : String)
deriving DecidableEq, Repr

/-- The outside world: what each call returns, given the calls made so far.
`unmarshal` is `yaml.Unmarshal` into an `*extFile`, a function of the bytes
alone.  `runBuild` is the build invoker of this package, defined in another
file.  The results of `File.Close` and `fmt.Printf` are discarded by the
program and have no field here. -/
structure Env where
  readFile : List Call → String → Except GoError String
  unmarshal : String → Except GoError extFile
  mkdirAll : List Call → String → Nat → Option GoError
  chdir : List Call → String → Option GoError
  create : List Call → String → Option GoError
  write : List Call → String → String → Option GoError
  writeFile : List Call → String → String → Nat → Option GoError
  getwd : List Call → Except GoError String
  runBuild : List Call → String → String → String → Bool → Option GoError
  stat : List Call → String → Option GoError

/-- The writes of the pieces of text to an open file, one `Write` per piece,
stopping at the first one that fails. -/
def writeAll (env : Env) (h : List Call) (file : String) : List String → List Call × Option GoError
  | [] => (h, none)
  | s :: rest =>
    match env.write h file s with
    | some err => (h ++ [Call.write file s], some err)
    | none => writeAll env (h ++ [Call.write file s]) file rest

/-- Go `tmpl.Execute(f, ef)` of `html/template`: escape the template, then
execute it, writing each piece of text to the file as it is produced.  A failed
write ends the execution with the error of the write; otherwise the result is
the error of the execution itself, if any. -/
def Execute (env : Env) (h : List Call) (file : String) (tmpl : List Node) (ef : extFile) :
    List Call × Option GoError :=
  match escapeTemplate tmpl with
  | none => (h, some (errorsNew "template: main: outside the embedded fragment"))
  | some t =>
    match (writeAll env h file (execNodes ef t).1).2 with
    | some err => ((writeAll env h file (execNodes ef t).1).1, some err)
    | none => ((writeAll env h file (execNodes ef t).1).1, (execNodes ef t).2)

/-! ## `build_server.go` -/

/-- Go `type buildServerCmd struct`. -/
structure buildServerCmd where
  verbose : Bool
  noCache : Bool
deriving DecidableEq, Repr

/-- Go `func generateMain(ef *extFile) error`.  Returns the history extended
by the calls made, and the error. -/
def generateMain (env : Env) (h : List Call) (ef : extFile) : List Call × Option GoError :=
  match Parse "main" mainTmpl with
  | .error err => (h, some err)
  | .ok tmpl =>
    match env.create h "main.go" with
    | some err => (h ++ [Call.create "main.go"], some err)
    | none =>
      -- defer f.Close()
      ((Execute env (h ++ [Call.create "main.go"]) "main.go" tmpl ef).1 ++ [Call.close "main.go"],
       (Execute env (h ++ [Call.create "main.go"]) "main.go" tmpl ef).2)

/-- Go `func generateDockerfile() error`. -/
def generateDockerfile (env : Env) (h : List Call) : List Call × Option GoError :=
  match env.writeFile h "Dockerfile" dockerFileTmpl 0o644 with
  | some err => (h ++ [Call.writeFile "Dockerfile" dockerFileTmpl 0o644], some err)
  | none => (h ++ [Call.writeFile "Dockerfile" dockerFileTmpl 0o644], none)

/-- Go `func (b *buildServerCmd) buildServer(c *cli.Context) error`; `tag` is
`c.String("tag")`.  Returns the history extended by the calls made, and the
error. -/
def buildServer (env : Env) (b : buildServerCmd) (tag : String) (h : List Call) :
    List Call × Option GoError :=
  if tag = "" then (h, some (errorsNew "docker tag required"))
  else
    let fpath := "ext.yaml"
    let h1 := h ++ [Call.readFile fpath]
    match env.readFile h fpath with
    | .error err =>
      (h1, some (errorsNew ("could not open " ++ fpath ++ " for parsing. Error: " ++ err.msg)))
    | .ok bb =>
      match env.unmarshal bb with
      | .error err => (h1, some err)
      | .ok ef =>
        let h2 := h1 ++ [Call.mkdirAll "tmp" 0o777]
        match env.mkdirAll h1 "tmp" 0o777 with
        | some err => (h2, some err)
        | none =>
          let h3 := h2 ++ [Call.chdir "tmp"]
          match env.chdir h2 "tmp" with
          | some err => (h3, some err)
          | none =>
            match generateMain env h3 ef with
            | (h4, some err) => (h4, some err)
            | (h4, none) =>
              match generateDockerfile env h4 with
              | (h5, some err) => (h5, some err)
              | (h5, none) =>
                let h6 := h5 ++ [Call.getwd]
                match env.getwd h5 with
                | .error err => (h6, some err)
                | .ok dir =>
                  let h7 := h6 ++ [Call.runBuild dir tag "Dockerfile" b.noCache]
                  match env.runBuild h6 dir tag "Dockerfile" b.noCache with
                  | some err => (h7, some err)
                  | none => (h7 ++ [Call.printf "Custom Fn server built successfully.\n"], none)

/-! ## `langs/base.go` -/

/-- Go `const defaultJavaSupportedVersion`. -/
def defaultJavaSupportedVersion : String := "9"

/-- Go `var ErrBoilerplateExists`. -/
def ErrBoilerplateExists : GoError := errorsNew "Function boilerplate already exists"

/-- The values `GetLangHelper` builds.  Each constructor is one of the helper
struct types of package `langs` (declared in other files), carrying the fields
its composite literal in `GetLangHelper` sets; every other field of the struct
has its zero value in all of them. -/
inductive LangHelper
  | GoLangHelper
  | NodeLangHelper
  | RubyLangHelper
  | PythonLangHelper (Version : String)
  | PhpLangHelper
  | RustLangHelper
  | DotNetLangHelper
  | LambdaNodeHelper
  | JavaLangHelper (version : String)
deriving DecidableEq, Repr

/-- Go `func GetLangHelper(lang string) LangHelper`; `none` is the nil
interface value. -/
def GetLangHelper (lang : String) : Option LangHelper :=
  if lang = "go" then some .GoLangHelper
  else if lang = "node" then some .NodeLangHelper
  else if lang = "ruby" then some .RubyLangHelper
  else if lang = "python" then some (.PythonLangHelper "2.7.13")
  else if lang = "python2.7" then some (.PythonLangHelper "2.7.13")
  else if lang = "python3.6" then some (.PythonLangHelper "3.6")
  else if lang = "php" then some .PhpLangHelper
  else if lang = "rust" then some .RustLangHelper
  else if lang = "dotnet" then some .DotNetLangHelper
  else if lang = "lambda-nodejs4.3" ∨ lang = "lambda-node-4" then some .LambdaNodeHelper
  else if lang = "java" then some (.JavaLangHelper defaultJavaSupportedVersion)
  else if lang = "java8" then some (.JavaLangHelper "1.8")
  else if lang = "java9" then some (.JavaLangHelper "9")
  else none

/-- Go `type BaseHelper struct {}`. -/
structure BaseHelper where
deriving DecidableEq, Repr

/-- Go `func (h *BaseHelper) IsMultiStage() bool`. -/
def BaseHelper.IsMultiStage (_h : BaseHelper) : Bool := true

/-- Go `func (h *BaseHelper) DockerfileBuildCmds() []string`. -/
def BaseHelper.DockerfileBuildCmds (_h : BaseHelper) : List String := []

/-- Go `func (h *BaseHelper) DockerfileCopyCmds() []string`. -/
def BaseHelper.DockerfileCopyCmds (_h : BaseHelper) : List String := []

/-- Go `func (h *BaseHelper) Entrypoint() (string, error)`. -/
def BaseHelper.Entrypoint (_h : BaseHelper) : String × Option GoError := ("", none)

/-- Go `func (h *BaseHelper) Cmd() (string, error)`. -/
def BaseHelper.Cmd (_h : BaseHelper) : String × Option GoError := ("", none)

/-- Go `func (h *BaseHelper) HasPreBuild() bool`. -/
def BaseHelper.HasPreBuild (_h : BaseHelper) : Bool := false

/-- Go `func (h *BaseHelper) PreBuild() error`: the history after the call,
and the error. -/
def BaseHelper.PreBuild (_h : BaseHelper) (hist : List Call) : List Call × Option GoError :=
  (hist, none)

/-- Go `func (h *BaseHelper) AfterBuild() error`. -/
def BaseHelper.AfterBuild (_h : BaseHelper) (hist : List Call) : List Call × Option GoError :=
  (hist, none)

/-- Go `func (h *BaseHelper) HasBoilerplate() bool`. -/
def BaseHelper.HasBoilerplate (_h : BaseHelper) : Bool := false

/-- Go `func (h *BaseHelper) GenerateBoilerplate() error`. -/
def BaseHelper.GenerateBoilerplate (_h : BaseHelper) (hist : List Call) :
    List Call × Option GoError :=
  (hist, none)

/-- Go `func (h *BaseHelper) DefaultFormat() string`. -/
def BaseHelper.DefaultFormat (_h : BaseHelper) : String := ""

/-- Go `func (h *BaseHelper) FixImagesOnInit() bool`. -/
def BaseHelper.FixImagesOnInit (_h : BaseHelper) : Bool := false

/-- The members of `LangHelper` that `BaseHelper` implements, as one record of
methods. -/
structure Methods where
  IsMultiStage : Bool
  DockerfileBuildCmds : List String
  DockerfileCopyCmds : List String
  Entrypoint : String × Option GoError
  Cmd : String × Option GoError
  DefaultFormat : String
  HasPreBuild : Bool
  PreBuild : List Call → List Call × Option GoError
  AfterBuild : List Call → List Call × Option GoError
  HasBoilerplate : Bool
  GenerateBoilerplate : List Call → List Call × Option GoError
  FixImagesOnInit : Bool

/-- The methods a struct type declares itself; `none` where it declares none
and leaves the member to the embedded `BaseHelper`. -/
structure Overrides where
  IsMultiStage : Option Bool := none
  DockerfileBuildCmds : Option (List String) := none
  DockerfileCopyCmds : Option (List String) := none
  Entrypoint : Option (String × Option GoError) := none
  Cmd : Option (String × Option GoError) := none
  DefaultFormat : Option String := none
  HasPreBuild : Option Bool := none
  PreBuild : Option (List Call → List Call × Option GoError) := none
  AfterBuild : Option (List Call → List Call × Option GoError) := none
  HasBoilerplate : Option Bool := none
  GenerateBoilerplate : Option (List Call → List Call × Option GoError) := none
  FixImagesOnInit : Option Bool := none

/-- Method set of a struct that embeds `BaseHelper`: Go selects the method
the struct declares itself and, where there is none, promotes the method of the
embedded field. -/
def embedBaseHelper (h : BaseHelper) (own : Overrides) : Methods where
  IsMultiStage := own.IsMultiStage.getD h.IsMultiStage
  DockerfileBuildCmds := own.DockerfileBuildCmds.getD h.DockerfileBuildCmds
  DockerfileCopyCmds := own.DockerfileCopyCmds.getD h.DockerfileCopyCmds
  Entrypoint := own.Entrypoint.getD h.Entrypoint
  Cmd := own.Cmd.getD h.Cmd
  DefaultFormat := own.DefaultFormat.getD h.DefaultFormat
  HasPreBuild := own.HasPreBuild.getD h.HasPreBuild
  PreBuild := own.PreBuild.getD h.PreBuild
  AfterBuild := own.AfterBuild.getD h.AfterBuild
  HasBoilerplate := own.HasBoilerplate.getD h.HasBoilerplate
  GenerateBoilerplate := own.GenerateBoilerplate.getD h.GenerateBoilerplate
  FixImagesOnInit := own.FixImagesOnInit.getD h.FixImagesOnInit

/-- A method called `n` times in a row: the history after the last call and
the errors returned, in order. -/
def callTimes (m : List Call → List Call × Option GoError) :
    Nat → List Call → List Call × List (Option GoError)
  | 0, hist => (hist, [])
  | n + 1, hist => ((callTimes m n (m hist).1).1, (m hist).2 :: (callTimes m n (m hist).1).2)

/-- Go `os.IsNotExist`. -/
def osIsNotExist (err : GoError) : Bool := err.notExist

/-- Go `func exists(name string) bool`; the answer of `os.Stat` comes from the
environment (`none`: the file could be examined). -/
def langs.exists (env : Env) (h : List Call) (name : String) : List Call × Bool :=
  match env.stat h name with
  | some err =>
    if osIsNotExist err then (h ++ [Call.stat name], false)
    else (h ++ [Call.stat name], true)
  | none => (h ++ [Call.stat name], true)

/-! ## Observations on histories and texts -/

/-- The bytes written to an open file by the `Write` calls of a history, in order. -/
def written (file : String) : List Call → String
  | [] => ""
  | Call.write f d :: rest => if f = file then d ++ written file rest else written file rest
  | _ :: rest => written file rest

/-- The manifest whose entries carry the given names, in order: what
`yaml.Unmarshal` builds from a document whose `extensions` entries are
mappings. -/
def manifest (names : List String) : extFile :=
  { Extensions := names.map fun n => some { Name := n } }

/-- The parsed form of `mainTmpl`. -/
def mainNodes : List Node :=
  [Node.text "package main\n\nimport (\n\t\"context\"\n\n\t\"github.com/fnproject/fn/api/server\"",
   Node.range "Extensions" [Leaf.text "\n\t\t_ \"", Leaf.action "Name" [], Leaf.text "\""],
   Node.text "\n)\n\nfunc main() \x7b\n\tctx := context.Background()\n\tfuncServer := server.NewFromEnv(ctx)",
   Node.range "Extensions"
     [Leaf.text "\n\t\tfuncServer.AddExtensionByName(\"", Leaf.action "Name" [], Leaf.text "\")"],
   Node.text "\n\tfuncServer.Start(ctx)\n\x7d\n"]

/-- The escaped form of `mainTmpl`. -/
def mainEscaped : List Node :=
  [Node.text "package main\n\nimport (\n\t\"context\"\n\n\t\"github.com/fnproject/fn/api/server\"",
   Node.range "Extensions"
     [Leaf.text "\n\t\t_ \"", Leaf.action "Name" [htmlEscaperName], Leaf.text "\""],
   Node.text "\n)\n\nfunc main() \x7b\n\tctx := context.Background()\n\tfuncServer := server.NewFromEnv(ctx)",
   Node.range "Extensions"
     [Leaf.text "\n\t\tfuncServer.AddExtensionByName(\"", Leaf.action "Name" [htmlEscaperName],
      Leaf.text "\")"],
   Node.text "\n\tfuncServer.Start(ctx)\n\x7d\n"]

/-- Go `strings.Contains` on character lists: `sub` occurs in the list. -/
def containsChars (sub : List Char) : List Char → Bool
  | [] => sub.isEmpty
  | c :: rest => sub.isPrefixOf (c :: rest) || containsChars sub rest

/-- Go `strings.Contains`. -/
def stringsContains (s sub : String) : Bool :=
  containsChars sub.toList s.toList

/-- An outside world in which `ext.yaml` holds `content`, the YAML library
answers `parsed`, and every other call succeeds. -/
def quietEnv (content : String) (parsed : Except GoError extFile) : Env where
  readFile := fun _ _ => .ok content
  unmarshal := fun _ => parsed
  mkdirAll := fun _ _ _ => none
  chdir := fun _ _ => none
  create := fun _ _ => none
  write := fun _ _ _ => none
  writeFile := fun _ _ _ _ => none
  getwd := fun _ => .ok "/work/tmp"
  runBuild := fun _ _ _ _ _ => none
  stat := fun _ _ => none

/-- An outside world in which `os.Stat` fails on every path with the given
error (and every other call succeeds). -/
def statFailsEnv (err : GoError) : Env :=
  { quietEnv "" (.ok { Extensions := [] }) with stat := fun _ _ => some err }

/-! ## Reading a Dockerfile -/

/-- The lines of a text: the pieces between newline characters; a last piece
without a newline counts when it is not empty. -/
def splitLines : List Char → List Char → List String
  | cur, [] => if cur = [] then [] else [String.mk cur.reverse]
  | cur, c :: rest =>
    if c = '\n' then String.mk cur.reverse :: splitLines [] rest
    else splitLines (c :: cur) rest

/-- Is this line of a Dockerfile an instruction, that is neither blank nor a
comment (first character other than space and tab is `#`)? -/
def isInstruction (line : String) : Bool :=
  match line.toList.dropWhile (fun c => c = ' ' || c = '\t') with
  | [] => false
  | c :: _ => c != '#'

/-- The instructions of a Dockerfile, in order. -/
def dockerInstructions (text : String) : List String :=
  (splitLines [] text.toList).filter isInstruction

/-- The keyword of an instruction: its first word. -/
def instructionKeyword (line : String) : String :=
  String.mk ((line.toList.dropWhile (fun c => c = ' ' || c = '\t')).takeWhile
    (fun c => !(c = ' ' || c = '\t')))

/-- Group instructions into build stages: each `FROM` opens a new stage; the
first argument is the stage being read, if any. -/
def splitStages : Option (List String) → List String → List (List String)
  | none, [] => []
  | some cur, [] => [cur]
  | none, l :: rest =>
    if instructionKeyword l = "FROM" then splitStages (some [l]) rest
    else splitStages none rest
  | some cur, l :: rest =>
    if instructionKeyword l = "FROM" then cur :: splitStages (some [l]) rest
    else splitStages (some (cur ++ [l])) rest

/-- The build stages of a Dockerfile, each with its instructions in order. -/
def dockerStages (text : String) : List (List String) :=
  splitStages none (dockerInstructions text)

/-! ## The build pipeline, step by step -/

/-- The steps of `buildServer`, in the order in which they are to run. -/
inductive Step
  | tagCheck
  | readManifest
  | parseManifest
  | mkdirTmp
  | chdirTmp
  | genMain
  | genDockerfile
  | getwd
  | runBuild
deriving DecidableEq, Repr

/-- The nine steps in their order. -/
def stepOrder : List Step :=
  [.tagCheck, .readManifest, .parseManifest, .mkdirTmp, .chdirTmp, .genMain, .genDockerfile,
   .getwd, .runBuild]

/-- The history together with the local variables of `buildServer` that one
step hands to a later one. -/
structure Frame where
  hist : List Call
  bb : String
  ef : extFile
  dir : String

/-- What one step does: the statement of `buildServer` that performs it, with
the error it tests. -/
def runStep (env : Env) (b : buildServerCmd) (tag : String) : Step → Frame → Frame × Option GoError
  | .tagCheck, fr =>
    (fr, if tag = "" then some (errorsNew "docker tag required") else none)
  | .readManifest, fr =>
    match env.readFile fr.hist "ext.yaml" with
    | .error err =>
      ({ fr with hist := fr.hist ++ [Call.readFile "ext.yaml"] },
       some (errorsNew ("could not open " ++ "ext.yaml" ++ " for parsing. Error: " ++ err.msg)))
    | .ok bb => ({ fr with hist := fr.hist ++ [Call.readFile "ext.yaml"], bb := bb }, none)
  | .parseManifest, fr =>
    match env.unmarshal fr.bb with
    | .error err => (fr, some err)
    | .ok ef => ({ fr with ef := ef }, none)
  | .mkdirTmp, fr =>
    ({ fr with hist := fr.hist ++ [Call.mkdirAll "tmp" 0o777] }, env.mkdirAll fr.hist "tmp" 0o777)
  | .chdirTmp, fr =>
    ({ fr with hist := fr.hist ++ [Call.chdir "tmp"] }, env.chdir fr.hist "tmp")
  | .genMain, fr =>
    ({ fr with hist := (generateMain env fr.hist fr.ef).1 }, (generateMain env fr.hist fr.ef).2)
  | .genDockerfile, fr =>
    ({ fr with hist := (generateDockerfile env fr.hist).1 }, (generateDockerfile env fr.hist).2)
  | .getwd, fr =>
    match env.getwd fr.hist with
    | .error err => ({ fr with hist := fr.hist ++ [Call.getwd] }, some err)
    | .ok dir => ({ fr with hist := fr.hist ++ [Call.getwd], dir := dir }, none)
  | .runBuild, fr =>
    ({ fr with hist := fr.hist ++ [Call.runBuild fr.dir tag "Dockerfile" b.noCache] },
     env.runBuild fr.hist fr.dir tag "Dockerfile" b.noCache)

/-- The record of a run: the frame at its end, the steps executed in order,
each with the error it returned, and the error of the run. -/
structure Run where
  frame : Frame
  results : List (Step × Option GoError)
  err : Option GoError

/-- Run the given steps one after the other: a step that returns an error ends
the run with that error and no later step is executed; when no step fails the
run ends without error. -/
def runInOrder (step : Step → Frame → Frame × Option GoError) : List Step → Frame → Run
  | [], fr => { frame := fr, results := [], err := none }
  | s :: rest, fr =>
    match (step s fr).2 with
    | some err => { frame := (step s fr).1, results := [(s, some err)], err := some err }
    | none =>
      { frame := (runInOrder step rest (step s fr).1).frame,
        results := (s, none) :: (runInOrder step rest (step s fr).1).results,
        err := (runInOrder step rest (step s fr).1).err }

/-- The run of the nine steps of `buildServer` in their order, from the given
history. -/
def buildRun (env : Env) (b : buildServerCmd) (tag : String) (h : List Call) : Run :=
  runInOrder (runStep env b tag) stepOrder
    { hist := h, bb := "", ef := { Extensions := [] }, dir := "" }

/-- Is the call an invocation of `runBuild`? -/
def Call.isRunBuild : Call → Bool
  | .runBuild _ _ _ _ => true
  | _ => false

/-! ## Reading the generated source -/

/-- The lines of a source text. -/
def sourceLines (text : String) : List String :=
  splitLines [] text.toList

/-- The names of the non-nil entries of a manifest, in order. -/
def entryNames (ef : extFile) : List String :=
  ef.Extensions.filterMap fun e => e.map fun x => x.Name

/-- The import line the template writes for an entry name. -/
def importLine (n : String) : String :=
  "\t\t_ \"" ++ htmlEscaper n ++ "\""

/-- The registration line the template writes for an entry name. -/
def registrationLine (n : String) : String :=
  "\t\tfuncServer.AddExtensionByName(\"" ++ htmlEscaper n ++ "\")"

/-- Is the line an import of an extension: does it start with two tabs and
the blank import `_ "`? -/
def isImportLine (l : String) : Bool :=
  "\t\t_ \"".toList.isPrefixOf l.toList

/-- Is the line a registration: does it start with two tabs and
`funcServer.AddExtensionByName("`? -/
def isRegistrationLine (l : String) : Bool :=
  "\t\tfuncServer.AddExtensionByName(\"".toList.isPrefixOf l.toList

/-- The lines strictly between the first line equal to `first` and the next
line equal to `last`. -/
def linesBetween (first last : String) (ls : List String) : List String :=
  ((ls.dropWhile fun l => l != first).drop 1).takeWhile fun l => l != last

/-- The lines of the import block: after `import (`, up to the closing `)`. -/
def importBlock (ls : List String) : List String :=
  linesBetween "import (" ")" ls

/-- The lines of `main` between the creation of the server and its start. -/
def registrationBlock (ls : List String) : List String :=
  linesBetween "\tfuncServer := server.NewFromEnv(ctx)" "\tfuncServer.Start(ctx)" ls

/-! # Properties -/

/-! ## The template engine on `mainTmpl` -/

set_option maxRecDepth 100000 in
theorem parse_mainTmpl : Parse "main" mainTmpl = .ok mainNodes := by rfl

set_option maxRecDepth 100000 in
theorem escape_mainNodes : escapeTemplate mainNodes = some mainEscaped := by decide

theorem concat_append (xs ys : List String) : concat (xs ++ ys) = concat xs ++ concat ys := by
  induction xs with
  | nil => simp [concat]
  | cons x xs ih => simp [concat, ih, String.append_assoc]

theorem execLeaves_entry (a b n : String) :
    execLeaves (some { Name := n }) [Leaf.text a, Leaf.action "Name" [htmlEscaperName], Leaf.text b]
      = ([a, htmlEscaper n, b], none) := by
  simp [execLeaves, execLeaf, evalField, applyFuncs, callFunc]

theorem execRange_manifest (a b : String) (names : List String) :
    execRange [Leaf.text a, Leaf.action "Name" [htmlEscaperName], Leaf.text b]
        (names.map fun n => some { Name := n })
      = ((names.map fun n => [a, htmlEscaper n, b]).flatten, none) := by
  induction names with
  | nil => simp [execRange]
  | cons n ns ih => simp [execRange, execLeaves_entry, ih]

theorem concat_entries (a b : String) (f : String → String) (names : List String) :
    concat (names.map fun n => [a, f n, b]).flatten = concat (names.map fun n => a ++ f n ++ b) := by
  induction names with
  | nil => simp [concat]
  | cons n ns ih => simp [concat, ih, String.append_assoc]

/-- Execution of the escaped `mainTmpl` on a manifest of names never fails. -/
theorem execNodes_manifest_ok (names : List String) :
    (execNodes (manifest names) mainEscaped).2 = none := by
  simp [execNodes, mainEscaped, evalRangeField, manifest, execRange_manifest]

/-- The text the escaped `mainTmpl` produces on a manifest of names. -/
theorem execNodes_manifest_text (names : List String) :
    concat (execNodes (manifest names) mainEscaped).1 =
      "package main\n\nimport (\n\t\"context\"\n\n\t\"github.com/fnproject/fn/api/server\""
      ++ concat (names.map fun n => "\n\t\t_ \"" ++ htmlEscaper n ++ "\"")
      ++ "\n)\n\nfunc main() \x7b\n\tctx := context.Background()\n\tfuncServer := server.NewFromEnv(ctx)"
      ++ concat (names.map fun n =>
          "\n\t\tfuncServer.AddExtensionByName(\"" ++ htmlEscaper n ++ "\")")
      ++ "\n\tfuncServer.Start(ctx)\n\x7d\n" := by
  simp [execNodes, mainEscaped, evalRangeField, manifest, execRange_manifest, concat,
    concat_append, concat_entries, String.append_assoc]

/-! ## Histories -/

theorem written_append (file : String) (xs ys : List Call) :
    written file (xs ++ ys) = written file xs ++ written file ys := by
  induction xs with
  | nil => simp [written]
  | cons c cs ih =>
    cases c <;> simp [written, ih]
    split <;> simp [String.append_assoc]

theorem written_writes (file : String) (chunks : List String) :
    written file (chunks.map (Call.write file)) = concat chunks := by
  induction chunks with
  | nil => simp [written, concat]
  | cons c cs ih => simp [written, concat, ih]

theorem written_main (file : String) (chunks : List String) :
    written file (Call.create file :: (chunks.map (Call.write file) ++ [Call.close file]))
      = concat chunks := by
  simp [written, written_append, written_writes]

theorem writeAll_ok (env : Env) (file : String) (chunks : List String) :
    ∀ h, (writeAll env h file chunks).2 = none →
      (writeAll env h file chunks).1 = h ++ chunks.map (Call.write file) := by
  induction chunks with
  | nil => intro h _; simp [writeAll]
  | cons c cs ih =>
    intro h hw
    simp only [writeAll] at hw ⊢
    cases hc : env.write h file c with
    | some err => simp [hc] at hw
    | none =>
      simp only [hc] at hw ⊢
      rw [ih _ hw]; simp

theorem writeAll_quiet (env : Env) (file : String) (hq : ∀ h f d, env.write h f d = none)
    (chunks : List String) : ∀ h, (writeAll env h file chunks).2 = none := by
  induction chunks with
  | nil => intro h; simp [writeAll]
  | cons c cs ih => intro h; simp [writeAll, hq, ih]

/-! ## C1 -/

/-- For the manifest with the given names, whenever `generateMain` returns
nil the bytes it
wrote to `main.go` are: the fixed head ending inside the import block; then
one import line per entry, the i-th built from the i-th name, in manifest order;
then the fixed middle that closes the import block and ends with
`server.NewFromEnv(ctx)`; then one `AddExtensionByName` line per entry, in
manifest order; then the fixed tail starting with `funcServer.Start(ctx)`.  And
`generateMain` does return nil when creating and writing the file succeed. -/
theorem generateMain_bytes (names : List String) (env : Env) (h : List Call) :
    ((generateMain env h (manifest names)).2 = none →
      ∃ cs, (generateMain env h (manifest names)).1 = h ++ cs ∧
        written "main.go" cs =
          "package main\n\nimport (\n\t\"context\"\n\n\t\"github.com/fnproject/fn/api/server\""
          ++ concat (names.map fun n => "\n\t\t_ \"" ++ htmlEscaper n ++ "\"")
          ++ "\n)\n\nfunc main() \x7b\n\tctx := context.Background()\n\tfuncServer := server.NewFromEnv(ctx)"
          ++ concat (names.map fun n =>
              "\n\t\tfuncServer.AddExtensionByName(\"" ++ htmlEscaper n ++ "\")")
          ++ "\n\tfuncServer.Start(ctx)\n\x7d\n")
    ∧ ((∀ h1 p, env.create h1 p = none) → (∀ h1 f d, env.write h1 f d = none) →
        (generateMain env h (manifest names)).2 = none) := by
  constructor
  · intro hnil
    simp only [generateMain, parse_mainTmpl] at hnil ⊢
    cases hc : env.create h "main.go" with
    | some err => simp [hc] at hnil
    | none =>
      simp only [hc, Execute, escape_mainNodes] at hnil ⊢
      cases hw : (writeAll env (h ++ [Call.create "main.go"]) "main.go"
          (execNodes (manifest names) mainEscaped).1).2 with
      | some err => simp [hw] at hnil
      | none =>
        simp only [hw]
        refine ⟨Call.create "main.go" ::
          ((execNodes (manifest names) mainEscaped).1.map (Call.write "main.go")
            ++ [Call.close "main.go"]), ?_, ?_⟩
        · rw [writeAll_ok _ _ _ _ hw]; simp
        · rw [written_main, execNodes_manifest_text]
  · intro hcreate hwrite
    simp [generateMain, parse_mainTmpl, hcreate, Execute, escape_mainNodes,
      writeAll_quiet env "main.go" hwrite, execNodes_manifest_ok]

theorem splitLines_cons_ne (acc rest : List Char) (c : Char) (hc : c ≠ '\n') :
    splitLines acc (c :: rest) = splitLines (c :: acc) rest := by
  simp [splitLines, hc]

theorem splitLines_cons_nl (acc rest : List Char) :
    splitLines acc ('\n' :: rest) = String.mk acc.reverse :: splitLines [] rest := by
  simp [splitLines]

theorem splitLines_skip (l : List Char) (hl : '\n' ∉ l) :
    ∀ (acc rest : List Char), splitLines acc (l ++ rest) = splitLines (l.reverse ++ acc) rest := by
  induction l with
  | nil => intro acc rest; rfl
  | cons c cs ih =>
    intro acc rest
    have hc : c ≠ '\n' := fun h => hl (by simp [h])
    have hcs : '\n' ∉ cs := fun h => hl (by simp [h])
    rw [List.cons_append, splitLines_cons_ne _ _ _ hc, ih hcs]
    simp

theorem splitLines_chunks (ls : List (List Char)) (hls : ∀ l ∈ ls, '\n' ∉ l) :
    ∀ (acc rest : List Char),
      splitLines acc ((ls.map fun l => '\n' :: l).flatten ++ '\n' :: rest)
        = String.mk acc.reverse :: (ls.map String.mk ++ splitLines [] rest) := by
  induction ls with
  | nil => intro acc rest; simp [splitLines_cons_nl]
  | cons l ls ih =>
    intro acc rest
    have hl : '\n' ∉ l := hls l (by simp)
    have hrest : ∀ x ∈ ls, '\n' ∉ x := fun x hx => hls x (by simp [hx])
    have hshape : ((l :: ls).map fun l => '\n' :: l).flatten ++ '\n' :: rest
        = '\n' :: (l ++ ((ls.map fun l => '\n' :: l).flatten ++ '\n' :: rest)) := by simp
    rw [hshape, splitLines_cons_nl, splitLines_skip l hl, ih hrest]
    simp

theorem concat_toList (l : List String) :
    (concat l).toList = (l.map String.toList).flatten := by
  induction l with
  | nil => rfl
  | cons s rest ih =>
    show (s ++ concat rest).data = s.data ++ (rest.map String.toList).flatten
    rw [String.data_append]
    exact congrArg _ ih

theorem replacement_no_newline (c : Char) (hc : c ≠ '\n') :
    '\n' ∉ (if htmlReplacementTable c = "" then String.singleton c
      else htmlReplacementTable c).toList := by
  unfold htmlReplacementTable
  split_ifs <;> first
    | decide
    | (show '\n' ∉ [c]
       simpa using hc.symm)

theorem htmlEscaper_no_newline (n : String) (hn : '\n' ∉ n.toList) :
    '\n' ∉ (htmlEscaper n).toList := by
  unfold htmlEscaper
  rw [concat_toList]
  intro hmem
  rw [List.mem_flatten] at hmem
  obtain ⟨cs, hcs, hin⟩ := hmem
  rw [List.map_map, List.mem_map] at hcs
  obtain ⟨c, hc, rfl⟩ := hcs
  exact replacement_no_newline c (fun h => hn (h ▸ hc)) hin

theorem toList_append (a b : String) : (a ++ b).toList = a.toList ++ b.toList :=
  String.data_append a b

theorem chunk_chars (pre post : String) (names : List String) (line : String → String)
    (hline : ∀ n, (pre ++ htmlEscaper n ++ post).toList = '\n' :: (line n).toList) :
    (concat (names.map fun n => pre ++ htmlEscaper n ++ post)).toList
      = ((names.map fun n => (line n).toList).map fun l => '\n' :: l).flatten := by
  rw [concat_toList, List.map_map, List.map_map]
  congr 1
  apply List.map_congr_left
  intro n _
  exact hline n

set_option maxRecDepth 100000 in
theorem head_lines (rest : List Char) :
    splitLines []
        ("package main\n\nimport (\n\t\"context\"\n\n\t\"github.com/fnproject/fn/api/server\"".toList
          ++ rest)
      = ["package main", "", "import (", "\t\"context\"", ""]
        ++ splitLines "\t\"github.com/fnproject/fn/api/server\"".toList.reverse rest := by
  rfl

set_option maxRecDepth 100000 in
theorem mid_lines (rest : List Char) :
    splitLines []
        (")\n\nfunc main() \x7b\n\tctx := context.Background()\n\tfuncServer := server.NewFromEnv(ctx)".toList
          ++ rest)
      = [")", "", "func main() \x7b", "\tctx := context.Background()"]
        ++ splitLines "\tfuncServer := server.NewFromEnv(ctx)".toList.reverse rest := by
  rfl

theorem line_chars_no_newline (pre post : String) (hpre : '\n' ∉ pre.toList)
    (hpost : '\n' ∉ post.toList) (names : List String) (hn : ∀ n ∈ names, '\n' ∉ n.toList) :
    ∀ l ∈ names.map (fun n => (pre ++ htmlEscaper n ++ post).toList), '\n' ∉ l := by
  intro l hl
  rw [List.mem_map] at hl
  obtain ⟨n, hmem, rfl⟩ := hl
  show '\n' ∉ (pre ++ htmlEscaper n ++ post).data
  rw [String.data_append, String.data_append]
  simp only [List.mem_append, not_or]
  exact ⟨⟨hpre, htmlEscaper_no_newline n (hn n hmem)⟩, hpost⟩

set_option maxRecDepth 100000 in
/-- The lines of the text `generateMain` writes for names without newline. -/
theorem mainText_lines (names : List String) (hn : ∀ n ∈ names, '\n' ∉ n.toList) :
    sourceLines
        ("package main\n\nimport (\n\t\"context\"\n\n\t\"github.com/fnproject/fn/api/server\""
          ++ concat (names.map fun n => "\n\t\t_ \"" ++ htmlEscaper n ++ "\"")
          ++ "\n)\n\nfunc main() \x7b\n\tctx := context.Background()\n\tfuncServer := server.NewFromEnv(ctx)"
          ++ concat (names.map fun n =>
              "\n\t\tfuncServer.AddExtensionByName(\"" ++ htmlEscaper n ++ "\")")
          ++ "\n\tfuncServer.Start(ctx)\n\x7d\n")
      = ["package main", "", "import (", "\t\"context\"", "",
          "\t\"github.com/fnproject/fn/api/server\""]
        ++ names.map importLine
        ++ [")", "", "func main() \x7b", "\tctx := context.Background()",
            "\tfuncServer := server.NewFromEnv(ctx)"]
        ++ names.map registrationLine
        ++ ["\tfuncServer.Start(ctx)", "\x7d"] := by
  unfold sourceLines
  have e1 := chunk_chars "\n\t\t_ \"" "\"" names importLine (fun n => rfl)
  have e2 := chunk_chars "\n\t\tfuncServer.AddExtensionByName(\"" "\")" names registrationLine
    (fun n => rfl)
  have n1 : ∀ l ∈ names.map (fun n => (importLine n).toList), '\n' ∉ l :=
    line_chars_no_newline "\t\t_ \"" "\"" (by decide) (by decide) names hn
  have n2 : ∀ l ∈ names.map (fun n => (registrationLine n).toList), '\n' ∉ l :=
    line_chars_no_newline "\t\tfuncServer.AddExtensionByName(\"" "\")" (by decide)
      (by decide) names hn
  rw [toList_append, toList_append, toList_append, toList_append, e1, e2]
  simp only [List.append_assoc]
  rw [head_lines]
  have hmid : ("\n)\n\nfunc main() \x7b\n\tctx := context.Background()\n\tfuncServer := server.NewFromEnv(ctx)" : String).toList
      = '\n' :: (")\n\nfunc main() \x7b\n\tctx := context.Background()\n\tfuncServer := server.NewFromEnv(ctx)" : String).toList := rfl
  have htail : ("\n\tfuncServer.Start(ctx)\n\x7d\n" : String).toList
      = '\n' :: ("\tfuncServer.Start(ctx)\n\x7d\n" : String).toList := rfl
  rw [hmid, htail]
  simp only [List.cons_append]
  rw [splitLines_chunks _ n1, mid_lines, splitLines_chunks _ n2]
  have htl : splitLines [] ("\tfuncServer.Start(ctx)\n\x7d\n" : String).toList
      = ["\tfuncServer.Start(ctx)", "\x7d"] := by rfl
  rw [htl, List.map_map, List.map_map]
  have hmk : ∀ (line : String → String),
      (String.mk ∘ fun n => (line n).toList) = line := fun line => rfl
  rw [hmk, hmk]
  rfl

theorem filter_map_all {α β : Type} (p : β → Bool) (f : α → β) (l : List α)
    (hp : ∀ a, p (f a) = true) : (l.map f).filter p = l.map f := by
  rw [List.filter_eq_self]
  intro b hb
  obtain ⟨a, _, rfl⟩ := List.mem_map.mp hb
  exact hp a

theorem filter_map_none {α β : Type} (p : β → Bool) (f : α → β) (l : List α)
    (hp : ∀ a, p (f a) = false) : (l.map f).filter p = [] := by
  rw [List.filter_eq_nil_iff]
  intro b hb
  obtain ⟨a, _, rfl⟩ := List.mem_map.mp hb
  simp [hp a]

theorem dropWhile_ne_append (first : String) (pre rest : List String)
    (hpre : ∀ l ∈ pre, l ≠ first) :
    (pre ++ first :: rest).dropWhile (fun l => l != first) = first :: rest := by
  induction pre with
  | nil => simp [List.dropWhile]
  | cons x xs ih =>
    have hx : x ≠ first := hpre x (by simp)
    have hb : (x != first) = true := by simpa using hx
    rw [List.cons_append, List.dropWhile_cons, hb]
    exact ih (fun l hl => hpre l (by simp [hl]))

theorem takeWhile_ne_append (last : String) (mid rest : List String)
    (hmid : ∀ l ∈ mid, l ≠ last) :
    (mid ++ last :: rest).takeWhile (fun l => l != last) = mid := by
  induction mid with
  | nil => simp [List.takeWhile]
  | cons x xs ih =>
    have hx : x ≠ last := hmid x (by simp)
    have hb : (x != last) = true := by simpa using hx
    rw [List.cons_append, List.takeWhile_cons, hb]
    simp only [if_true]
    rw [ih (fun l hl => hmid l (by simp [hl]))]

theorem linesBetween_spec (first last : String) (pre mid post : List String)
    (hpre : ∀ l ∈ pre, l ≠ first) (hmid : ∀ l ∈ mid, l ≠ last) :
    linesBetween first last (pre ++ first :: (mid ++ last :: post)) = mid := by
  unfold linesBetween
  rw [dropWhile_ne_append first pre _ hpre]
  simpa using takeWhile_ne_append last mid post hmid

theorem importLine_start (n : String) : (importLine n).toList.take 3 = ['\t', '\t', '_'] := rfl

theorem registrationLine_start (n : String) :
    (registrationLine n).toList.take 3 = ['\t', '\t', 'f'] := rfl

theorem ne_of_start (a b : String) (h : a.toList.take 3 ≠ b.toList.take 3) : a ≠ b :=
  fun hab => h (by rw [hab])

/-- What the lines of the generated text show, for any list of names. -/
theorem mainLines_facts (names : List String) :
    (["package main", "", "import (", "\t\"context\"", "",
        "\t\"github.com/fnproject/fn/api/server\""]
      ++ names.map importLine
      ++ [")", "", "func main() \x7b", "\tctx := context.Background()",
          "\tfuncServer := server.NewFromEnv(ctx)"]
      ++ names.map registrationLine
      ++ ["\tfuncServer.Start(ctx)", "\x7d"]).filter isImportLine = names.map importLine
    ∧ (["package main", "", "import (", "\t\"context\"", "",
        "\t\"github.com/fnproject/fn/api/server\""]
      ++ names.map importLine
      ++ [")", "", "func main() \x7b", "\tctx := context.Background()",
          "\tfuncServer := server.NewFromEnv(ctx)"]
      ++ names.map registrationLine
      ++ ["\tfuncServer.Start(ctx)", "\x7d"]).filter isRegistrationLine
        = names.map registrationLine
    ∧ importBlock (["package main", "", "import (", "\t\"context\"", "",
        "\t\"github.com/fnproject/fn/api/server\""]
      ++ names.map importLine
      ++ [")", "", "func main() \x7b", "\tctx := context.Background()",
          "\tfuncServer := server.NewFromEnv(ctx)"]
      ++ names.map registrationLine
      ++ ["\tfuncServer.Start(ctx)", "\x7d"])
        = ["\t\"context\"", "", "\t\"github.com/fnproject/fn/api/server\""]
          ++ names.map importLine
    ∧ registrationBlock (["package main", "", "import (", "\t\"context\"", "",
        "\t\"github.com/fnproject/fn/api/server\""]
      ++ names.map importLine
      ++ [")", "", "func main() \x7b", "\tctx := context.Background()",
          "\tfuncServer := server.NewFromEnv(ctx)"]
      ++ names.map registrationLine
      ++ ["\tfuncServer.Start(ctx)", "\x7d"]) = names.map registrationLine := by
  have ii : ∀ n, isImportLine (importLine n) = true := by
    intro n
    rw [isImportLine, List.isPrefixOf_iff_prefix, importLine, toList_append, toList_append,
      List.append_assoc]
    exact List.prefix_append _ _
  have ir : ∀ n, isImportLine (registrationLine n) = false := fun _ => rfl
  have ri : ∀ n, isRegistrationLine (importLine n) = false := fun _ => rfl
  have rr : ∀ n, isRegistrationLine (registrationLine n) = true := by
    intro n
    rw [isRegistrationLine, List.isPrefixOf_iff_prefix, registrationLine, toList_append,
      toList_append, List.append_assoc]
    exact List.prefix_append _ _
  refine ⟨?_, ?_, ?_, ?_⟩
  · rw [List.filter_append, List.filter_append, List.filter_append, List.filter_append,
      filter_map_all _ _ _ ii, filter_map_none _ _ _ ir]
    have a1 : (["package main", "", "import (", "\t\"context\"", "",
        "\t\"github.com/fnproject/fn/api/server\""] : List String).filter isImportLine = [] := by
      decide
    have a2 : ([")", "", "func main() \x7b", "\tctx := context.Background()",
        "\tfuncServer := server.NewFromEnv(ctx)"] : List String).filter isImportLine = [] := by
      decide
    have a3 : (["\tfuncServer.Start(ctx)", "\x7d"] : List String).filter isImportLine = [] := by
      decide
    rw [a1, a2, a3]; simp
  · rw [List.filter_append, List.filter_append, List.filter_append, List.filter_append,
      filter_map_all _ _ _ rr, filter_map_none _ _ _ ri]
    have a1 : (["package main", "", "import (", "\t\"context\"", "",
        "\t\"github.com/fnproject/fn/api/server\""] : List String).filter isRegistrationLine
          = [] := by decide
    have a2 : ([")", "", "func main() \x7b", "\tctx := context.Background()",
        "\tfuncServer := server.NewFromEnv(ctx)"] : List String).filter isRegistrationLine
          = [] := by decide
    have a3 : (["\tfuncServer.Start(ctx)", "\x7d"] : List String).filter isRegistrationLine
        = [] := by decide
    rw [a1, a2, a3]; simp
  · have hshape : (["package main", "", "import (", "\t\"context\"", "",
          "\t\"github.com/fnproject/fn/api/server\""]
        ++ names.map importLine
        ++ [")", "", "func main() \x7b", "\tctx := context.Background()",
            "\tfuncServer := server.NewFromEnv(ctx)"]
        ++ names.map registrationLine
        ++ ["\tfuncServer.Start(ctx)", "\x7d"])
        = ["package main", ""] ++ "import (" ::
            ((["\t\"context\"", "", "\t\"github.com/fnproject/fn/api/server\""]
                ++ names.map importLine)
              ++ ")" :: (["", "func main() \x7b", "\tctx := context.Background()",
                  "\tfuncServer := server.NewFromEnv(ctx)"]
                ++ names.map registrationLine ++ ["\tfuncServer.Start(ctx)", "\x7d"])) := by
      simp
    rw [hshape]
    apply linesBetween_spec
    · decide
    · intro l hl
      rcases List.mem_append.mp hl with hl | hl
      · exact (by decide : ∀ x ∈ (["\t\"context\"", "",
          "\t\"github.com/fnproject/fn/api/server\""] : List String), x ≠ ")") l hl
      · obtain ⟨n, _, rfl⟩ := List.mem_map.mp hl
        exact ne_of_start _ _ (by rw [importLine_start]; decide)
  · have hshape : (["package main", "", "import (", "\t\"context\"", "",
          "\t\"github.com/fnproject/fn/api/server\""]
        ++ names.map importLine
        ++ [")", "", "func main() \x7b", "\tctx := context.Background()",
            "\tfuncServer := server.NewFromEnv(ctx)"]
        ++ names.map registrationLine
        ++ ["\tfuncServer.Start(ctx)", "\x7d"])
        = (["package main", "", "import (", "\t\"context\"", "",
              "\t\"github.com/fnproject/fn/api/server\""]
            ++ names.map importLine
            ++ [")", "", "func main() \x7b", "\tctx := context.Background()"])
          ++ "\tfuncServer := server.NewFromEnv(ctx)" ::
            (names.map registrationLine ++ "\tfuncServer.Start(ctx)" :: ["\x7d"]) := by
      simp
    rw [hshape]
    apply linesBetween_spec
    · intro l hl
      rcases List.mem_append.mp hl with hl | hl
      · rcases List.mem_append.mp hl with hl | hl
        · exact (by decide : ∀ x ∈ (["package main", "", "import (", "\t\"context\"", "",
            "\t\"github.com/fnproject/fn/api/server\""] : List String),
            x ≠ "\tfuncServer := server.NewFromEnv(ctx)") l hl
        · obtain ⟨n, _, rfl⟩ := List.mem_map.mp hl
          exact ne_of_start _ _ (by rw [importLine_start]; decide)
      · exact (by decide : ∀ x ∈ ([")", "", "func main() \x7b",
          "\tctx := context.Background()"] : List String),
          x ≠ "\tfuncServer := server.NewFromEnv(ctx)") l hl
    · intro l hl
      obtain ⟨n, _, rfl⟩ := List.mem_map.mp hl
      exact ne_of_start _ _ (by rw [registrationLine_start]; decide)

theorem manifest_entryNames (ef : extFile) (hnn : ∀ e ∈ ef.Extensions, e ≠ none) :
    ef = manifest (entryNames ef) ∧ (entryNames ef).length = ef.Extensions.length := by
  cases ef with
  | mk exts =>
    simp only [manifest, entryNames, extFile.mk.injEq]
    induction exts with
    | nil => simp
    | cons e es ih =>
      have he : e ≠ none := hnn e (by simp)
      have hes := ih (fun x hx => hnn x (by simp [hx]))
      cases e with
      | none => exact absurd rfl he
      | some x =>
        simp only [List.filterMap_cons, Option.map_some', List.map_cons, List.length_cons]
        exact ⟨by rw [← hes.1], by rw [hes.2]⟩

set_option maxRecDepth 100000 in
/-- C1 as stated fails at manifests the program can receive.  With a null
entry, `generateMain` returns an error and `main.go` stops inside its first
extension import: one entry, no registration line.  With the two names
`a\n)\n` and `b` it returns nil and the line importing `b` stands after a line
`)`, outside the block of imports.  With the two names
`x\n\tfuncServer.Start(ctx)\n` and `y` it returns nil and the registration
line of `y` stands after a line `funcServer.Start(ctx)`. -/
theorem generateMain_lines_fail_on_null_entry_or_newline :
    ((generateMain (quietEnv "" (.ok { Extensions := [none] })) []
        { Extensions := [none] }).2 ≠ none
      ∧ written "main.go" (generateMain (quietEnv "" (.ok { Extensions := [none] })) []
          { Extensions := [none] }).1
        = "package main\n\nimport (\n\t\"context\"\n\n\t\"github.com/fnproject/fn/api/server\"\n\t\t_ \""
      ∧ (sourceLines (written "main.go"
          (generateMain (quietEnv "" (.ok { Extensions := [none] })) []
            { Extensions := [none] }).1)).filter isRegistrationLine = [])
    ∧ ((generateMain (quietEnv "" (.ok (manifest ["a\n)\n", "b"]))) []
        (manifest ["a\n)\n", "b"])).2 = none
      ∧ sourceLines (written "main.go"
          (generateMain (quietEnv "" (.ok (manifest ["a\n)\n", "b"]))) []
            (manifest ["a\n)\n", "b"])).1)
        = ["package main", "", "import (", "\t\"context\"", "",
           "\t\"github.com/fnproject/fn/api/server\"", "\t\t_ \"a", ")", "\"", "\t\t_ \"b\"",
           ")", "", "func main() \x7b", "\tctx := context.Background()",
           "\tfuncServer := server.NewFromEnv(ctx)", "\t\tfuncServer.AddExtensionByName(\"a",
           ")", "\")", "\t\tfuncServer.AddExtensionByName(\"b\")", "\tfuncServer.Start(ctx)",
           "\x7d"]
      ∧ isImportLine "\t\t_ \"b\"" = true
      ∧ importBlock (sourceLines (written "main.go"
          (generateMain (quietEnv "" (.ok (manifest ["a\n)\n", "b"]))) []
            (manifest ["a\n)\n", "b"])).1))
        = ["\t\"context\"", "", "\t\"github.com/fnproject/fn/api/server\"", "\t\t_ \"a"])
    ∧ ((generateMain (quietEnv "" (.ok (manifest ["x\n\tfuncServer.Start(ctx)\n", "y"]))) []
        (manifest ["x\n\tfuncServer.Start(ctx)\n", "y"])).2 = none
      ∧ sourceLines (written "main.go"
          (generateMain (quietEnv "" (.ok (manifest ["x\n\tfuncServer.Start(ctx)\n", "y"]))) []
            (manifest ["x\n\tfuncServer.Start(ctx)\n", "y"])).1)
        = ["package main", "", "import (", "\t\"context\"", "",
           "\t\"github.com/fnproject/fn/api/server\"", "\t\t_ \"x", "\tfuncServer.Start(ctx)",
           "\"", "\t\t_ \"y\"", ")", "", "func main() \x7b", "\tctx := context.Background()",
           "\tfuncServer := server.NewFromEnv(ctx)", "\t\tfuncServer.AddExtensionByName(\"x",
           "\tfuncServer.Start(ctx)", "\")", "\t\tfuncServer.AddExtensionByName(\"y\")",
           "\tfuncServer.Start(ctx)", "\x7d"]
      ∧ isRegistrationLine "\t\tfuncServer.AddExtensionByName(\"y\")" = true
      ∧ registrationBlock (sourceLines (written "main.go"
          (generateMain (quietEnv "" (.ok (manifest ["x\n\tfuncServer.Start(ctx)\n", "y"]))) []
            (manifest ["x\n\tfuncServer.Start(ctx)\n", "y"])).1))
        = ["\t\tfuncServer.AddExtensionByName(\"x"]) := by
  refine ⟨⟨?_, by rfl, by rfl⟩, ⟨by rfl, by rfl, by rfl, by rfl⟩, ⟨by rfl, by rfl, by rfl, by rfl⟩⟩
  intro hnil
  have hsome : (generateMain (quietEnv "" (.ok { Extensions := [none] })) []
      { Extensions := [none] }).2
      = some (errorsNew "template: main: nil pointer evaluating *main.extInfo.Name") := by rfl
  rw [hsome] at hnil
  cases hnil

/-- C1, amended: for every manifest whose entries are all non-nil and whose
names contain no newline (any length, the empty one included, duplicates
allowed), there is one name per entry and, whenever `generateMain` returns
nil, the lines of `main.go` are: the six fixed lines up to the import of the
server package; one import line per entry, the i-th built from the name of the
i-th entry, in manifest order; the five fixed lines from the closing `)` to
`server.NewFromEnv(ctx)`; one registration line per entry, the i-th built from
the name of the i-th entry, in manifest order; the two fixed lines from
`funcServer.Start(ctx)`.  These are all the import lines and all the
registration lines of the file; the import lines stand in the import block and
the registration lines are exactly the lines between `server.NewFromEnv(ctx)`
and `funcServer.Start(ctx)`.  And `generateMain` does return nil when creating
and writing the file succeed. -/
theorem generateMain_lines_in_manifest_order (ef : extFile)
    (hnn : ∀ e ∈ ef.Extensions, e ≠ none)
    (hnl : ∀ n ∈ entryNames ef, '\n' ∉ n.toList) (env : Env) (h : List Call) :
    (entryNames ef).length = ef.Extensions.length
    ∧ ((generateMain env h ef).2 = none →
      ∃ cs, (generateMain env h ef).1 = h ++ cs
        ∧ sourceLines (written "main.go" cs)
          = ["package main", "", "import (", "\t\"context\"", "",
              "\t\"github.com/fnproject/fn/api/server\""]
            ++ (entryNames ef).map importLine
            ++ [")", "", "func main() \x7b", "\tctx := context.Background()",
                "\tfuncServer := server.NewFromEnv(ctx)"]
            ++ (entryNames ef).map registrationLine
            ++ ["\tfuncServer.Start(ctx)", "\x7d"]
        ∧ (sourceLines (written "main.go" cs)).filter isImportLine
          = (entryNames ef).map importLine
        ∧ (sourceLines (written "main.go" cs)).filter isRegistrationLine
          = (entryNames ef).map registrationLine
        ∧ importBlock (sourceLines (written "main.go" cs))
          = ["\t\"context\"", "", "\t\"github.com/fnproject/fn/api/server\""]
            ++ (entryNames ef).map importLine
        ∧ registrationBlock (sourceLines (written "main.go" cs))
          = (entryNames ef).map registrationLine)
    ∧ ((∀ h1 p, env.create h1 p = none) → (∀ h1 f d, env.write h1 f d = none) →
        (generateMain env h ef).2 = none) := by
  obtain ⟨hef, hlen⟩ := manifest_entryNames ef hnn
  have hb := generateMain_bytes (entryNames ef) env h
  rw [← hef] at hb
  refine ⟨hlen, ?_, hb.2⟩
  intro hnil
  obtain ⟨cs, h1, h2⟩ := hb.1 hnil
  have hl := mainText_lines (entryNames ef) hnl
  rw [← h2] at hl
  have hf := mainLines_facts (entryNames ef)
  rw [← hl] at hf
  exact ⟨cs, h1, hl, hf.1, hf.2.1, hf.2.2.1, hf.2.2.2⟩

set_option maxRecDepth 100000 in
/-- C1, amended, at the manifest `[ext/a, ext/b]` and a file system that
accepts the writes: `generateMain` returns nil and `main.go` has the import of
`ext/a` then that of `ext/b` inside the import block, and registers `ext/a`
then `ext/b` between `server.NewFromEnv(ctx)` and `funcServer.Start(ctx)`. -/
theorem generateMain_lines_in_manifest_order_witness :
    (∀ e ∈ (manifest ["ext/a", "ext/b"]).Extensions, e ≠ none)
    ∧ (∀ n ∈ entryNames (manifest ["ext/a", "ext/b"]), '\n' ∉ n.toList)
    ∧ (generateMain (quietEnv "" (.ok (manifest ["ext/a", "ext/b"]))) []
        (manifest ["ext/a", "ext/b"])).2 = none
    ∧ ∃ cs, (generateMain (quietEnv "" (.ok (manifest ["ext/a", "ext/b"]))) []
        (manifest ["ext/a", "ext/b"])).1 = [] ++ cs
      ∧ sourceLines (written "main.go" cs)
        = ["package main", "", "import (", "\t\"context\"", "",
           "\t\"github.com/fnproject/fn/api/server\"", "\t\t_ \"ext/a\"", "\t\t_ \"ext/b\"",
           ")", "", "func main() \x7b", "\tctx := context.Background()",
           "\tfuncServer := server.NewFromEnv(ctx)",
           "\t\tfuncServer.AddExtensionByName(\"ext/a\")",
           "\t\tfuncServer.AddExtensionByName(\"ext/b\")", "\tfuncServer.Start(ctx)", "\x7d"]
      ∧ importBlock (sourceLines (written "main.go" cs))
        = ["\t\"context\"", "", "\t\"github.com/fnproject/fn/api/server\"", "\t\t_ \"ext/a\"",
           "\t\t_ \"ext/b\""]
      ∧ registrationBlock (sourceLines (written "main.go" cs))
        = ["\t\tfuncServer.AddExtensionByName(\"ext/a\")",
           "\t\tfuncServer.AddExtensionByName(\"ext/b\")"] := by
  have hnn : ∀ e ∈ (manifest ["ext/a", "ext/b"]).Extensions, e ≠ none := by decide
  have hnl : ∀ n ∈ entryNames (manifest ["ext/a", "ext/b"]), '\n' ∉ n.toList := by decide
  have key := generateMain_lines_in_manifest_order (manifest ["ext/a", "ext/b"]) hnn hnl
    (quietEnv "" (.ok (manifest ["ext/a", "ext/b"]))) []
  have hnil := key.2.2 (fun _ _ => rfl) (fun _ _ _ => rfl)
  refine ⟨hnn, hnl, hnil, ?_⟩
  obtain ⟨cs, h1, h2, _, _, h5, h6⟩ := key.2.1 hnil
  refine ⟨cs, h1, ?_, ?_, ?_⟩
  · rw [h2]; rfl
  · rw [h5]; rfl
  · rw [h6]; rfl

/-! ## C2, C3 -/

/-- C2: `GetLangHelper lang` is a helper (not nil) exactly when `lang` is,
character for character, one of the fourteen registered aliases; in particular
`Go`, `JAVA`, the empty string and `python3` give nil. -/
theorem GetLangHelper_isSome_iff (lang : String) :
    ((GetLangHelper lang).isSome = true ↔
      lang ∈ ["go", "node", "ruby", "python", "python2.7", "python3.6", "php", "rust", "dotnet",
        "lambda-nodejs4.3", "lambda-node-4", "java", "java8", "java9"])
    ∧ (GetLangHelper lang = none ↔
      lang ∉ ["go", "node", "ruby", "python", "python2.7", "python3.6", "php", "rust", "dotnet",
        "lambda-nodejs4.3", "lambda-node-4", "java", "java8", "java9"])
    ∧ GetLangHelper "Go" = none ∧ GetLangHelper "JAVA" = none ∧ GetLangHelper "" = none
    ∧ GetLangHelper "python3" = none ∧ GetLangHelper " go" = none ∧ GetLangHelper "go " = none := by
  have key : (GetLangHelper lang).isSome = true ↔
      lang ∈ ["go", "node", "ruby", "python", "python2.7", "python3.6", "php", "rust", "dotnet",
        "lambda-nodejs4.3", "lambda-node-4", "java", "java8", "java9"] := by
    by_cases h1 : lang = "go"
    · subst h1; decide
    by_cases h2 : lang = "node"
    · subst h2; decide
    by_cases h3 : lang = "ruby"
    · subst h3; decide
    by_cases h4 : lang = "python"
    · subst h4; decide
    by_cases h5 : lang = "python2.7"
    · subst h5; decide
    by_cases h6 : lang = "python3.6"
    · subst h6; decide
    by_cases h7 : lang = "php"
    · subst h7; decide
    by_cases h8 : lang = "rust"
    · subst h8; decide
    by_cases h9 : lang = "dotnet"
    · subst h9; decide
    by_cases h10 : lang = "lambda-nodejs4.3"
    · subst h10; decide
    by_cases h11 : lang = "lambda-node-4"
    · subst h11; decide
    by_cases h12 : lang = "java"
    · subst h12; decide
    by_cases h13 : lang = "java8"
    · subst h13; decide
    by_cases h14 : lang = "java9"
    · subst h14; decide
    simp only [GetLangHelper, h1, h2, h3, h4, h5, h6, h7, h8, h9, h10, h11, h12, h13, h14,
      if_false, or_self, List.mem_cons, List.mem_singleton, Option.isSome_none]
    simp
  refine ⟨key, ?_, by decide, by decide, by decide, by decide, by decide, by decide⟩
  rw [← key]
  cases hg : GetLangHelper lang <;> simp

/-- C3: aliases of one strategy resolve to equal helpers: `python` and
`python2.7` (Python helper, version 2.7.13), `java` and `java9` (Java helper,
version `defaultJavaSupportedVersion`, which is 9), `lambda-nodejs4.3` and
`lambda-node-4`; so whatever is computed from the helper, such as a build or
run image, is the same for both aliases of a pair. -/
theorem GetLangHelper_aliases_equal :
    GetLangHelper "python" = GetLangHelper "python2.7"
    ∧ GetLangHelper "python" = some (LangHelper.PythonLangHelper "2.7.13")
    ∧ GetLangHelper "java" = GetLangHelper "java9"
    ∧ GetLangHelper "java" = some (LangHelper.JavaLangHelper defaultJavaSupportedVersion)
    ∧ defaultJavaSupportedVersion = "9"
    ∧ GetLangHelper "lambda-nodejs4.3" = GetLangHelper "lambda-node-4"
    ∧ GetLangHelper "lambda-nodejs4.3" = some LangHelper.LambdaNodeHelper
    ∧ ∀ (Image : Type) (image : Option LangHelper → Image),
        image (GetLangHelper "python") = image (GetLangHelper "python2.7")
        ∧ image (GetLangHelper "java") = image (GetLangHelper "java9")
        ∧ image (GetLangHelper "lambda-nodejs4.3") = image (GetLangHelper "lambda-node-4") := by
  refine ⟨by decide, by decide, by decide, by decide, by decide, by decide, by decide, ?_⟩
  intro Image image
  have h1 : GetLangHelper "python" = GetLangHelper "python2.7" := by decide
  have h2 : GetLangHelper "java" = GetLangHelper "java9" := by decide
  have h3 : GetLangHelper "lambda-nodejs4.3" = GetLangHelper "lambda-node-4" := by decide
  rw [h1, h2, h3]
  exact ⟨rfl, rfl, rfl⟩

/-! ## C4 -/

/-- C4: with an empty tag, `buildServer` returns the error `docker tag
required` and makes no call at all: the history comes back as it was, so
`ext.yaml` is not read, `tmp` is neither created nor entered, neither `main.go`
nor `Dockerfile` is written and `runBuild` is not invoked. -/
theorem buildServer_empty_tag (env : Env) (b : buildServerCmd) (h : List Call) :
    buildServer env b "" h = (h, some (errorsNew "docker tag required"))
    ∧ (buildServer env b "" h).2 = some { msg := "docker tag required" }
    ∧ (buildServer env b "" h).1 = h := by
  simp [buildServer, errorsNew]

/-! ## C6 -/

/-- C6: `generateDockerfile` has no manifest among its inputs and, whatever
the outside world, makes the single call that writes the constant
`dockerFileTmpl` to `Dockerfile`.  That text has exactly two `FROM`
instructions, hence two stages.  The first is named `build-env`, adds `main.go`
and builds the `fnserver` binary; it has no `COPY`.  The second has exactly one
`COPY`, which copies `/tmp/fnserver` from `build-env` to `/app/fnserver`, and
ends by running that binary (`WORKDIR /app`, `CMD ["./fnserver"]`). -/
theorem generateDockerfile_fixed_two_stage (env : Env) (h : List Call) :
    (generateDockerfile env h).1 = h ++ [Call.writeFile "Dockerfile" dockerFileTmpl 0o644]
    ∧ (generateDockerfile env h).2 = env.writeFile h "Dockerfile" dockerFileTmpl 0o644
    ∧ ((dockerInstructions dockerFileTmpl).filter
        fun l => instructionKeyword l = "FROM").length = 2
    ∧ dockerStages dockerFileTmpl =
        [["FROM golang:1.9-alpine AS build-env",
          "RUN apk --no-cache add build-base git bzr mercurial gcc",
          "ENV D=/go/src/github.com/x/y",
          "ADD main.go $D/",
          "RUN cd $D && go get",
          "RUN cd $D && go build -o fnserver && cp fnserver /tmp/"],
         ["FROM fnproject/dind",
          "RUN apk add --no-cache ca-certificates",
          "WORKDIR /app",
          "COPY --from=build-env /tmp/fnserver /app/fnserver",
          "CMD [\"./fnserver\"]"]]
    ∧ (dockerStages dockerFileTmpl).map
          (fun stage => stage.filter fun l => instructionKeyword l = "COPY")
        = [[], ["COPY --from=build-env /tmp/fnserver /app/fnserver"]]
    ∧ (dockerStages dockerFileTmpl).map List.getLast?
        = [some "RUN cd $D && go build -o fnserver && cp fnserver /tmp/",
           some "CMD [\"./fnserver\"]"] := by
  refine ⟨?_, ?_, by decide, by decide, by decide, by decide⟩
  · unfold generateDockerfile; split <;> rfl
  · unfold generateDockerfile; split <;> simp_all

/-! ## C5 -/

set_option maxRecDepth 100000 in
/-- C5, at the manifest with the single entry `example.com/a+b`: every call
succeeds and `generateMain` returns nil, but the name reaches `main.go` as
`example.com/a&#43;b`, in the import line and in the registration call, and the
text contains neither the import line nor the registration call with the name
unchanged. -/
theorem generateMain_html_escapes_name :
    (generateMain (quietEnv "" (.ok (manifest ["example.com/a+b"]))) []
        (manifest ["example.com/a+b"])).2 = none
    ∧ written "main.go" (generateMain (quietEnv "" (.ok (manifest ["example.com/a+b"]))) []
        (manifest ["example.com/a+b"])).1 =
        "package main\n\nimport (\n\t\"context\"\n\n\t\"github.com/fnproject/fn/api/server\"\n\t\t_ \"example.com/a&#43;b\"\n)\n\nfunc main() \x7b\n\tctx := context.Background()\n\tfuncServer := server.NewFromEnv(ctx)\n\t\tfuncServer.AddExtensionByName(\"example.com/a&#43;b\")\n\tfuncServer.Start(ctx)\n\x7d\n"
    ∧ stringsContains
        (written "main.go" (generateMain (quietEnv "" (.ok (manifest ["example.com/a+b"]))) []
          (manifest ["example.com/a+b"])).1)
        "_ \"example.com/a+b\"" = false
    ∧ stringsContains
        (written "main.go" (generateMain (quietEnv "" (.ok (manifest ["example.com/a+b"]))) []
          (manifest ["example.com/a+b"])).1)
        "funcServer.AddExtensionByName(\"example.com/a+b\")" = false := by
  refine ⟨by rfl, by rfl, by rfl, by rfl⟩

/-! ## C7 -/

theorem callTimes_noop (m : List Call → List Call × Option GoError)
    (hm : ∀ hist, m hist = (hist, none)) (n : Nat) (hist : List Call) :
    callTimes m n hist = (hist, List.replicate n none) := by
  induction n generalizing hist with
  | zero => simp [callTimes]
  | succ k ih => simp [callTimes, hm, ih, List.replicate_succ]

/-- C7: in a struct that embeds `BaseHelper`, every member the struct does not
declare itself has the default of `BaseHelper`: the build and copy commands are
empty, `Entrypoint` and `Cmd` return the empty string and nil, `DefaultFormat`
is empty, `HasPreBuild`, `HasBoilerplate` and `FixImagesOnInit` are false,
`IsMultiStage` is true, and `PreBuild`, `AfterBuild` and `GenerateBoilerplate`
return nil and make no call; `GenerateBoilerplate` called any number of times
in a row returns nil each time and leaves the history as it was. -/
theorem BaseHelper_defaults (h : BaseHelper) (own : Overrides) (hist : List Call) (n : Nat) :
    (own.DockerfileBuildCmds = none → (embedBaseHelper h own).DockerfileBuildCmds = [])
    ∧ (own.DockerfileCopyCmds = none → (embedBaseHelper h own).DockerfileCopyCmds = [])
    ∧ (own.Entrypoint = none → (embedBaseHelper h own).Entrypoint = ("", none))
    ∧ (own.Cmd = none → (embedBaseHelper h own).Cmd = ("", none))
    ∧ (own.DefaultFormat = none → (embedBaseHelper h own).DefaultFormat = "")
    ∧ (own.HasPreBuild = none → (embedBaseHelper h own).HasPreBuild = false)
    ∧ (own.HasBoilerplate = none → (embedBaseHelper h own).HasBoilerplate = false)
    ∧ (own.FixImagesOnInit = none → (embedBaseHelper h own).FixImagesOnInit = false)
    ∧ (own.IsMultiStage = none → (embedBaseHelper h own).IsMultiStage = true)
    ∧ (own.PreBuild = none → (embedBaseHelper h own).PreBuild hist = (hist, none))
    ∧ (own.AfterBuild = none → (embedBaseHelper h own).AfterBuild hist = (hist, none))
    ∧ (own.GenerateBoilerplate = none →
        (embedBaseHelper h own).GenerateBoilerplate hist = (hist, none)
        ∧ callTimes (embedBaseHelper h own).GenerateBoilerplate n hist
            = (hist, List.replicate n none)) := by
  refine ⟨?_, ?_, ?_, ?_, ?_, ?_, ?_, ?_, ?_, ?_, ?_, ?_⟩ <;> intro hown
  all_goals first
    | (simp [embedBaseHelper, hown, BaseHelper.DockerfileBuildCmds,
        BaseHelper.DockerfileCopyCmds, BaseHelper.Entrypoint, BaseHelper.Cmd,
        BaseHelper.DefaultFormat, BaseHelper.HasPreBuild, BaseHelper.HasBoilerplate,
        BaseHelper.FixImagesOnInit, BaseHelper.IsMultiStage, BaseHelper.PreBuild,
        BaseHelper.AfterBuild, BaseHelper.GenerateBoilerplate]; done)
    | (refine ⟨by simp [embedBaseHelper, hown, BaseHelper.GenerateBoilerplate], ?_⟩
       apply callTimes_noop
       intro hist1
       simp [embedBaseHelper, hown, BaseHelper.GenerateBoilerplate])

/-- C7 at a struct that embeds `BaseHelper` and declares no method of its own,
with `GenerateBoilerplate` called three times. -/
theorem BaseHelper_defaults_witness :
    (embedBaseHelper {} {}).DockerfileBuildCmds = []
    ∧ (embedBaseHelper {} {}).IsMultiStage = true
    ∧ (embedBaseHelper {} {}).HasBoilerplate = false
    ∧ callTimes (embedBaseHelper {} {}).GenerateBoilerplate 3 [Call.getwd]
        = ([Call.getwd], [none, none, none]) := by
  have key := BaseHelper_defaults {} {} [Call.getwd] 3
  exact ⟨key.1 rfl, key.2.2.2.2.2.2.2.2.1 rfl, key.2.2.2.2.2.2.1 rfl,
    (key.2.2.2.2.2.2.2.2.2.2.2 rfl).2⟩

/-! ## C8 -/

/-- C8, at the tag `img` and a readable `ext.yaml` holding `extensions: x`,
which the YAML library rejects: `buildServer` returns the error of
`yaml.Unmarshal` as it is, and its message does not contain `ext.yaml`. -/
theorem buildServer_malformed_manifest_error_lacks_path :
    buildServer
        (quietEnv "extensions: x"
          (.error (errorsNew
            "yaml: unmarshal errors:\n  line 1: cannot unmarshal !!str `x` into []*main.extInfo")))
        { verbose := false, noCache := false } "img" []
      = ([Call.readFile "ext.yaml"],
         some (errorsNew
           "yaml: unmarshal errors:\n  line 1: cannot unmarshal !!str `x` into []*main.extInfo"))
    ∧ stringsContains
        "yaml: unmarshal errors:\n  line 1: cannot unmarshal !!str `x` into []*main.extInfo"
        "ext.yaml" = false := by
  refine ⟨by rfl, by rfl⟩

/-! ## C10 -/

/-- C10 as stated fails: when `os.Stat` fails with an error that is not a
not-exist error (here: permission denied), `exists` returns true although the
path could not be examined. -/
theorem exists_true_when_stat_denied :
    (langs.exists (statFailsEnv { msg := "stat secret/func.go: permission denied" }) []
        "secret/func.go").2 = true
    ∧ (statFailsEnv { msg := "stat secret/func.go: permission denied" }).stat []
        "secret/func.go" ≠ none
    ∧ ¬ (∀ (env : Env) (h : List Call) (name : String),
          (langs.exists env h name).2 = true ↔ env.stat h name = none) := by
  refine ⟨by rfl, by simp [statFailsEnv], ?_⟩
  intro hall
  have h1 := (hall (statFailsEnv { msg := "stat secret/func.go: permission denied" }) []
    "secret/func.go").mp (by rfl)
  simp [statFailsEnv] at h1

/-- C10, amended: `exists name` makes one `os.Stat` call and returns false
exactly when that call fails with an error for which `os.IsNotExist` holds; it
returns true when the call succeeds and also when it fails for any other
reason. -/
theorem exists_false_iff_not_exist (env : Env) (h : List Call) (name : String) :
    ((langs.exists env h name).2 = false ↔
      ∃ err, env.stat h name = some err ∧ osIsNotExist err = true)
    ∧ ((langs.exists env h name).2 = true ↔
      env.stat h name = none ∨ ∃ err, env.stat h name = some err ∧ osIsNotExist err = false)
    ∧ (langs.exists env h name).1 = h ++ [Call.stat name] := by
  unfold langs.exists
  cases hs : env.stat h name with
  | none => simp
  | some err =>
    cases he : osIsNotExist err <;> simp [he]

/-! ## C9 -/

theorem runInOrder_prefix (step : Step → Frame → Frame × Option GoError) (l : List Step) :
    ∀ fr, (runInOrder step l fr).results.map Prod.fst <+: l := by
  induction l with
  | nil => intro fr; simp [runInOrder]
  | cons s rest ih =>
    intro fr
    simp only [runInOrder]
    cases hs : (step s fr).2 with
    | some err => simp [List.prefix_cons_inj, List.cons_prefix_cons]
    | none => simpa [List.cons_prefix_cons] using ih _

theorem runInOrder_err (step : Step → Frame → Frame × Option GoError) (l : List Step) :
    ∀ fr, (runInOrder step l fr).err = ((runInOrder step l fr).results.getLast?).bind Prod.snd := by
  induction l with
  | nil => intro fr; simp [runInOrder]
  | cons s rest ih =>
    intro fr
    simp only [runInOrder]
    cases hs : (step s fr).2 with
    | some err => simp
    | none =>
      simp only []
      rw [ih]
      cases hr : (runInOrder step rest (step s fr).1).results with
      | nil => simp
      | cons p ps => simp [List.getLast?_cons_cons]

theorem runInOrder_earlier_ok (step : Step → Frame → Frame × Option GoError) (l : List Step) :
    ∀ fr, ∀ p ∈ (runInOrder step l fr).results.dropLast, p.2 = none := by
  induction l with
  | nil => intro fr; simp [runInOrder]
  | cons s rest ih =>
    intro fr
    simp only [runInOrder]
    cases hs : (step s fr).2 with
    | some err => simp
    | none =>
      simp only []
      cases hr : (runInOrder step rest (step s fr).1).results with
      | nil => simp
      | cons q qs =>
        intro p hp
        rw [List.dropLast_cons₂] at hp
        rcases List.mem_cons.mp hp with rfl | hp
        · rfl
        · exact ih (step s fr).1 p (by rw [hr]; exact hp)

theorem runInOrder_nil_iff (step : Step → Frame → Frame × Option GoError) (l : List Step) :
    ∀ fr, (runInOrder step l fr).err = none ↔
      ((runInOrder step l fr).results.map Prod.fst = l
        ∧ ∀ p ∈ (runInOrder step l fr).results, p.2 = none) := by
  induction l with
  | nil => intro fr; simp [runInOrder]
  | cons s rest ih =>
    intro fr
    simp only [runInOrder]
    cases hs : (step s fr).2 with
    | some err => simp
    | none => simpa using ih _

theorem writeAll_trace (env : Env) (file : String) (chunks : List String) :
    ∀ h, ∃ cs, (writeAll env h file chunks).1 = h ++ cs ∧ ∀ c ∈ cs, Call.isRunBuild c = false := by
  induction chunks with
  | nil => intro h; exact ⟨[], by simp [writeAll]⟩
  | cons s rest ih =>
    intro h
    simp only [writeAll]
    cases hw : env.write h file s with
    | some err => exact ⟨[Call.write file s], by simp [Call.isRunBuild]⟩
    | none =>
      obtain ⟨cs, h1, h2⟩ := ih (h ++ [Call.write file s])
      refine ⟨Call.write file s :: cs, by simp [h1], ?_⟩
      intro c hc
      rcases List.mem_cons.mp hc with rfl | hc
      · rfl
      · exact h2 c hc

theorem generateMain_trace (env : Env) (h : List Call) (ef : extFile) :
    ∃ cs, (generateMain env h ef).1 = h ++ cs ∧ ∀ c ∈ cs, Call.isRunBuild c = false := by
  simp only [generateMain, parse_mainTmpl]
  cases hc : env.create h "main.go" with
  | some err => exact ⟨[Call.create "main.go"], by simp [Call.isRunBuild]⟩
  | none =>
    simp only [Execute, escape_mainNodes]
    obtain ⟨cs, h1, h2⟩ := writeAll_trace env "main.go" (execNodes ef mainEscaped).1
      (h ++ [Call.create "main.go"])
    refine ⟨Call.create "main.go" :: (cs ++ [Call.close "main.go"]), ?_, ?_⟩
    · split <;> simp [h1]
    · intro c hc
      simp only [List.mem_cons, List.mem_append, List.mem_singleton, List.not_mem_nil, or_false] at hc
      rcases hc with rfl | hc | rfl
      · rfl
      · exact h2 c hc
      · rfl


theorem generateDockerfile_trace (env : Env) (h : List Call) :
    (generateDockerfile env h).1 = h ++ [Call.writeFile "Dockerfile" dockerFileTmpl 0o644] := by
  unfold generateDockerfile; split <;> rfl

theorem runStep_hist (env : Env) (b : buildServerCmd) (tag : String) (s : Step) (fr : Frame) :
    ∃ cs, (runStep env b tag s fr).1.hist = fr.hist ++ cs
      ∧ cs.countP Call.isRunBuild = [s].count Step.runBuild
      ∧ ∀ c ∈ cs, Call.isRunBuild c = true →
          ∃ dir, c = Call.runBuild dir tag "Dockerfile" b.noCache := by
  cases s with
  | tagCheck => exact ⟨[], by simp [runStep]⟩
  | readManifest =>
    refine ⟨[Call.readFile "ext.yaml"], ?_, by simp [Call.isRunBuild], by simp [Call.isRunBuild]⟩
    simp only [runStep]; split <;> rfl
  | parseManifest =>
    refine ⟨[], ?_, by simp, by simp⟩
    simp only [runStep]; split <;> simp
  | mkdirTmp => exact ⟨[Call.mkdirAll "tmp" 0o777], by simp [runStep, Call.isRunBuild]⟩
  | chdirTmp => exact ⟨[Call.chdir "tmp"], by simp [runStep, Call.isRunBuild]⟩
  | genMain =>
    obtain ⟨cs, h1, h2⟩ := generateMain_trace env fr.hist fr.ef
    refine ⟨cs, by simp [runStep, h1], ?_, ?_⟩
    · rw [List.countP_eq_zero.mpr (by intro c hc; simp [h2 c hc])]; simp
    · intro c hc hrb; rw [h2 c hc] at hrb; cases hrb
  | genDockerfile =>
    refine ⟨[Call.writeFile "Dockerfile" dockerFileTmpl 0o644], ?_, by simp [Call.isRunBuild],
      by simp [Call.isRunBuild]⟩
    simp [runStep, generateDockerfile_trace]
  | getwd =>
    refine ⟨[Call.getwd], ?_, by simp [Call.isRunBuild], by simp [Call.isRunBuild]⟩
    simp only [runStep]; split <;> rfl
  | runBuild =>
    exact ⟨[Call.runBuild fr.dir tag "Dockerfile" b.noCache], by simp [runStep, Call.isRunBuild]⟩

theorem buildRun_hist (env : Env) (b : buildServerCmd) (tag : String) (l : List Step) :
    ∀ fr, ∃ cs, (runInOrder (runStep env b tag) l fr).frame.hist = fr.hist ++ cs
      ∧ cs.countP Call.isRunBuild
          = ((runInOrder (runStep env b tag) l fr).results.map Prod.fst).count Step.runBuild
      ∧ ∀ c ∈ cs, Call.isRunBuild c = true →
          ∃ dir, c = Call.runBuild dir tag "Dockerfile" b.noCache := by
  induction l with
  | nil => intro fr; exact ⟨[], by simp [runInOrder]⟩
  | cons s rest ih =>
    intro fr
    obtain ⟨cs, h1, h2, h3⟩ := runStep_hist env b tag s fr
    simp only [runInOrder]
    cases hs : (runStep env b tag s fr).2 with
    | some err => exact ⟨cs, by simpa using h1, by simpa using h2, h3⟩
    | none =>
      obtain ⟨ds, k1, k2, k3⟩ := ih (runStep env b tag s fr).1
      refine ⟨cs ++ ds, by simp [k1, h1], ?_, ?_⟩
      · simp only [List.countP_append, h2, k2, List.map_cons, List.count_cons, List.count_nil]
        omega
      · intro c hc
        rcases List.mem_append.mp hc with hc | hc
        · exact h3 c hc
        · exact k3 c hc

set_option maxRecDepth 100000 in
theorem quiet_build_succeeds :
    (buildServer (quietEnv "" (.ok (manifest ["ext/a"]))) { verbose := false, noCache := true }
      "img" []).2 = none := by rfl

theorem run_cons_fail (step : Step → Frame → Frame × Option GoError) (s : Step) (rest : List Step)
    (fr : Frame) (e : GoError) (hs : (step s fr).2 = some e) :
    runInOrder step (s :: rest) fr
      = { frame := (step s fr).1, results := [(s, some e)], err := some e } := by
  simp [runInOrder, hs]

theorem run_cons_ok (step : Step → Frame → Frame × Option GoError) (s : Step) (rest : List Step)
    (fr : Frame) (hs : (step s fr).2 = none) :
    runInOrder step (s :: rest) fr
      = { frame := (runInOrder step rest (step s fr).1).frame,
          results := (s, none) :: (runInOrder step rest (step s fr).1).results,
          err := (runInOrder step rest (step s fr).1).err } := by
  simp [runInOrder, hs]

attribute [irreducible] generateMain generateDockerfile

theorem buildServer_eq_buildRun (env : Env) (b : buildServerCmd) (tag : String) (h : List Call) :
    (buildServer env b tag h).2 = (buildRun env b tag h).err
    ∧ (buildServer env b tag h).1 = (buildRun env b tag h).frame.hist ++
        (if (buildRun env b tag h).err = none
          then [Call.printf "Custom Fn server built successfully.\n"] else []) := by
  unfold buildServer buildRun stepOrder
  by_cases htag : tag = ""
  · rw [run_cons_fail _ _ _ _ (errorsNew "docker tag required") (by simp [runStep, htag])]
    simp [htag, runStep]
  rw [run_cons_ok _ _ _ _ (by simp [runStep, htag])]
  simp only [htag, if_false, runStep]
  cases hread : env.readFile h "ext.yaml" with
  | error err =>
    rw [run_cons_fail _ _ _ _ _ (by simp only [runStep, hread]; rfl)]
    simp [runStep, hread]
  | ok bb =>
    rw [run_cons_ok _ _ _ _ (by simp only [runStep, hread])]
    simp only [runStep, hread]
    cases hparse : env.unmarshal bb with
    | error err =>
      rw [run_cons_fail _ _ _ _ _ (by simp only [runStep, hparse]; rfl)]
      simp [runStep, hparse]
    | ok ef =>
      rw [run_cons_ok _ _ _ _ (by simp only [runStep, hparse])]
      simp only [runStep, hparse]
      cases hmk : env.mkdirAll (h ++ [Call.readFile "ext.yaml"]) "tmp" 0o777 with
      | some err =>
        rw [run_cons_fail _ _ _ _ _ (by simp only [runStep, hmk]; rfl)]
        simp [runStep, hmk]
      | none =>
        rw [run_cons_ok _ _ _ _ (by simp only [runStep, hmk])]
        simp only [runStep, hmk]
        cases hcd : env.chdir (h ++ [Call.readFile "ext.yaml"] ++ [Call.mkdirAll "tmp" 0o777]) "tmp" with
        | some err =>
          rw [run_cons_fail _ _ _ _ _ (by simp only [runStep, hcd]; rfl)]
          simp [runStep, hcd]
        | none =>
          rw [run_cons_ok _ _ _ _ (by simp only [runStep, hcd])]
          simp only [runStep, hcd]
          rcases hgm : generateMain env
            (h ++ [Call.readFile "ext.yaml"] ++ [Call.mkdirAll "tmp" 0o777] ++ [Call.chdir "tmp"]) ef
            with ⟨h4, _ | e4⟩
          · rw [run_cons_ok _ _ _ _ (by simp only [runStep, hgm])]
            simp only [runStep, hgm]
            rcases hgd : generateDockerfile env h4 with ⟨h5, _ | e5⟩
            · rw [run_cons_ok _ _ _ _ (by simp only [runStep, hgd])]
              simp only [runStep, hgd]
              cases hwd : env.getwd h5 with
              | error err =>
                rw [run_cons_fail _ _ _ _ _ (by simp only [runStep, hwd]; rfl)]
                simp [runStep, hwd]
              | ok dir =>
                rw [run_cons_ok _ _ _ _ (by simp only [runStep, hwd])]
                simp only [runStep, hwd]
                cases hrb : env.runBuild (h5 ++ [Call.getwd]) dir tag "Dockerfile" b.noCache with
                | some err =>
                  rw [run_cons_fail _ _ _ _ _ (by simp only [runStep, hrb]; rfl)]
                  simp [runStep, hrb]
                | none =>
                  rw [run_cons_ok _ _ _ _ (by simp only [runStep, hrb])]
                  simp [runStep, hrb, runInOrder]
            · rw [run_cons_fail _ _ _ _ _ (by simp only [runStep, hgd]; rfl)]
              simp [runStep, hgd]
          · rw [run_cons_fail _ _ _ _ _ (by simp only [runStep, hgm]; rfl)]
            simp only [runStep, hgm]
            simp

theorem prefix_stepOrder_with_runBuild (p : List Step) (hp : p <+: stepOrder)
    (hmem : Step.runBuild ∈ p) : p = stepOrder := by
  have hlen : p.length ≤ 9 := by simpa [stepOrder] using hp.length_le
  have htake : p = stepOrder.take p.length := List.prefix_iff_eq_take.mp hp
  have key : ∀ n, n ≤ 9 → Step.runBuild ∈ stepOrder.take n → stepOrder.take n = stepOrder := by
    intro n hn
    interval_cases n <;> decide
  rw [htake] at hmem ⊢
  simpa using key p.length hlen hmem

/-- C9: `buildServer` is the run of the nine steps (tag check, read
`ext.yaml`, parse the manifest, create `tmp`, enter `tmp`, generate `main.go`,
generate `Dockerfile`, get the working directory, `runBuild`) one after the
other in this order, ended by the first step that returns an error: it returns
the error of that run, and its calls are the calls of that run, followed by the
success message when there was no error.  The steps executed form an initial
segment of the order; every executed step but the last succeeded, and the
value returned is what the last executed step returned, so the first failing
step is the last one executed and its error is returned.  `buildServer`
returns nil exactly when all nine steps were executed and all succeeded.
`runBuild` is invoked at most once; it is invoked exactly when the run reaches
the `runBuild` step, which happens only when all nine steps are executed and
the eight before it succeeded; and every invocation has the caller's tag, the
file name `Dockerfile` and the `noCache` flag of the command. -/
theorem buildServer_runs_steps_in_order (env : Env) (b : buildServerCmd) (tag : String)
    (h : List Call) :
    (buildServer env b tag h).2 = (buildRun env b tag h).err
    ∧ (buildServer env b tag h).1 = (buildRun env b tag h).frame.hist ++
        (if (buildRun env b tag h).err = none
          then [Call.printf "Custom Fn server built successfully.\n"] else [])
    ∧ (buildRun env b tag h).results.map Prod.fst <+: stepOrder
    ∧ (∀ p ∈ (buildRun env b tag h).results.dropLast, p.2 = none)
    ∧ (buildServer env b tag h).2 = ((buildRun env b tag h).results.getLast?).bind Prod.snd
    ∧ ((buildServer env b tag h).2 = none ↔
        ((buildRun env b tag h).results.map Prod.fst = stepOrder
          ∧ ∀ p ∈ (buildRun env b tag h).results, p.2 = none))
    ∧ ∃ cs, (buildServer env b tag h).1 = h ++ cs
        ∧ cs.countP Call.isRunBuild ≤ 1
        ∧ cs.countP Call.isRunBuild
            = ((buildRun env b tag h).results.map Prod.fst).count Step.runBuild
        ∧ (∀ c ∈ cs, Call.isRunBuild c = true →
            ∃ dir, c = Call.runBuild dir tag "Dockerfile" b.noCache)
        ∧ (Step.runBuild ∈ (buildRun env b tag h).results.map Prod.fst →
            (buildRun env b tag h).results.map Prod.fst = stepOrder
            ∧ ∀ p ∈ (buildRun env b tag h).results.dropLast, p.2 = none) := by
  have heq := buildServer_eq_buildRun env b tag h
  have hpre : (buildRun env b tag h).results.map Prod.fst <+: stepOrder :=
    runInOrder_prefix _ _ _
  have hearly : ∀ p ∈ (buildRun env b tag h).results.dropLast, p.2 = none :=
    runInOrder_earlier_ok _ _ _
  refine ⟨heq.1, heq.2, hpre, hearly, ?_, ?_, ?_⟩
  · rw [heq.1]; exact runInOrder_err _ _ _
  · rw [heq.1]; exact runInOrder_nil_iff _ _ _
  · obtain ⟨cs, h1, h2, h3⟩ := buildRun_hist env b tag stepOrder
      { hist := h, bb := "", ef := { Extensions := [] }, dir := "" }
    have hcount : cs.countP Call.isRunBuild ≤ 1 := by
      rw [h2]
      calc ((runInOrder (runStep env b tag) stepOrder
              { hist := h, bb := "", ef := { Extensions := [] }, dir := "" }).results.map
              Prod.fst).count Step.runBuild
          ≤ stepOrder.count Step.runBuild := hpre.sublist.count_le _
        _ = 1 := by decide
    refine ⟨cs ++ (if (buildRun env b tag h).err = none
        then [Call.printf "Custom Fn server built successfully.\n"] else []), ?_, ?_, ?_, ?_, ?_⟩
    · rw [heq.2]
      show (runInOrder (runStep env b tag) stepOrder
        { hist := h, bb := "", ef := { Extensions := [] }, dir := "" }).frame.hist ++ _ = _
      rw [h1, List.append_assoc]
    · rw [List.countP_append]
      split <;> simpa [Call.isRunBuild] using hcount
    · rw [List.countP_append]
      split <;> simpa [Call.isRunBuild] using h2
    · intro c hc hrb
      rcases List.mem_append.mp hc with hc | hc
      · exact h3 c hc hrb
      · split at hc
        · simp only [List.mem_singleton] at hc
          subst hc
          cases hrb
        · cases hc
    · intro hmem
      exact ⟨prefix_stepOrder_with_runBuild _ hpre hmem, hearly⟩

/-- C9 at a run in which every call succeeds (manifest `[ext/a]`, tag `img`):
`buildServer` returns nil and all nine steps were executed, in order, each
without error. -/
theorem buildServer_runs_steps_in_order_witness :
    (buildServer (quietEnv "" (.ok (manifest ["ext/a"]))) { verbose := false, noCache := true }
      "img" []).2 = none
    ∧ (buildRun (quietEnv "" (.ok (manifest ["ext/a"]))) { verbose := false, noCache := true }
        "img" []).results.map Prod.fst = stepOrder
    ∧ ∀ p ∈ (buildRun (quietEnv "" (.ok (manifest ["ext/a"])))
        { verbose := false, noCache := true } "img" []).results, p.2 = none :=
  ⟨quiet_build_succeeds,
   ((buildServer_runs_steps_in_order (quietEnv "" (.ok (manifest ["ext/a"])))
      { verbose := false, noCache := true } "img" []).2.2.2.2.2.1.mp quiet_build_succeeds).1,
   ((buildServer_runs_steps_in_order (quietEnv "" (.ok (manifest ["ext/a"])))
      { verbose := false, noCache := true } "img" []).2.2.2.2.2.1.mp quiet_build_succeeds).2⟩
end FnCli
